import Mathlib

/-!
Shallow embedding of the `lru_ng` LRUDict C extension (files
`src/lrudict.c`, `src/lrudict_pq.c`, `src/lrudict_pq.h`,
`src/lrudict_statstype.h`) and proofs about its specified behaviour.

Keys are modelled as `Nat` (a well-behaved hashable host object); values are
an arbitrary type `V`.  The C `Node` carries `(key, value, key_hash)` plus
the doubly-linked `prev`/`next` pointers; the Order list threaded through the
nodes is modelled as a Lean list of `(key, value)` pairs in MRU-to-LRU order,
and the Python dict (the Index, mapping key to Node) is modelled by its key
set together with that list.  Machine counters (`unsigned long hits/misses`)
are `Nat` reduced mod 2^64 on increment, like the C `++` on `unsigned long`.
-/

namespace LRUNg

abbrev K := Nat

/-- Error kinds observable across the Python boundary, as set by the C code:
`keyError` (`_PyErr_SetKeyError`), `valueError` (size must be positive),
`typeError` (size must be an integer), `busy` (`LRUDictExc_BusyErr`). -/
inductive Err where
  | keyError
  | valueError
  | typeError
  | busy
  deriving DecidableEq, Repr

/-- The `LRUDict` object structure from `lrudict.c`: `dict` is the key set of
the Python dict (which maps each key to its Node), `order` is the
doubly-linked Node list from `first` (MRU) to `last` (LRU) with each Node
shown as its `(key, value)` payload, `staging` is the `staging_list` purge
queue, `hasCallback` tells whether `callback != NULL`. -/
structure State (V : Type) where
  size : Nat
  dict : List K
  order : List (K × V)
  staging : List (K × V)
  hasCallback : Bool
  hits : Nat
  misses : Nat
  shouldPurge : Bool
  internalBusy : Bool
  purgeBusy : Bool
  purgeSuspended : Bool
  detectConflict : Bool
  deriving DecidableEq, Repr

/-- Modulus of the C `unsigned long` counters (64-bit). -/
def ULONG_MOD : Nat := 2 ^ 64

/-- The C `self->hits++` / `self->misses++` on `unsigned long`: wraps. -/
def wrapIncr (n : Nat) : Nat := (n + 1) % ULONG_MOD

/-- Trace events: entering/leaving the LRUDict critical section
(`LRU_ENTER_CRIT` / `LRU_LEAVE_CRIT`) and an invocation of the eviction
callback with an evicted `(key, value)` pair. -/
inductive Event (V : Type) where
  | enterCrit
  | leaveCrit
  | callbackCall (k : K) (v : V)
  deriving DecidableEq, Repr

/-- `lru_remove_node_impl`: detach the node with key `k` from the Order
list (the C function takes the node pointer; under the structure invariant
the node is the unique list cell carrying `k`). -/
def lru_remove_node_impl (s : State V) (k : K) : State V :=
  { s with order := s.order.eraseP (fun p => p.1 == k) }

/-- `lru_add_node_at_head_impl`: link a node at `self->first` (MRU end). -/
def lru_add_node_at_head_impl (s : State V) (k : K) (v : V) : State V :=
  { s with order := (k, v) :: s.order }

/-- `_PyDict_GetItem_KnownHash` / `GET_NODE` on `self->dict`: probe the
Index for `k` and return the Node (its `(key, value)` payload).  The dict
owns the node; the payload is read off the Order list cell, which is the
same node object. -/
def lru_get_node (s : State V) (k : K) : Option (K × V) :=
  if k ∈ s.dict then s.order.find? (fun p => p.1 == k) else none

/-- `lru_delete_last_impl` (lrudict.c): evict `self->last`.  Delete the key
from the dict, detach the node, and if a callback is installed append the
node to `staging_list` and set `should_purge`.  (The later generation in
lrudict_pq.h also stages nodes whose key or value has a potentially foreign
destructor; with an installed callback both generations stage the node.) -/
def lru_delete_last_impl (s : State V) : State V :=
  match s.order.getLast? with
  | none => s
  | some n =>
    let s1 : State V :=
      { s with dict := s.dict.erase n.1, order := s.order.dropLast }
    if s1.hasCallback then
      { s1 with staging := s1.staging ++ [n], shouldPurge := true }
    else
      s1

/-- Outcome of one eviction-callback invocation: `none` is a normal return,
`some e` means the callback raised the Python exception class `e`. -/
inductive CbErr where
  | userError
  | recursionLimit
  | systemError
  | outOfMemory
  | shutdown
  deriving DecidableEq, Repr

/-- The callback-loop body of `lru_purge_staging_impl` (lrudict.c): call the
callback on each staged node in ascending index order; any error is written
to the unraisable hook (`PyErr_WriteUnraisable`) and cleared
(`PyErr_Clear`), and iteration continues.  Returns the invoked nodes and
the errors routed to the unraisable hook, in order. -/
def purge_loop (cb : K → V → Option CbErr) :
    List (K × V) → List (K × V) × List CbErr
  | [] => ([], [])
  | n :: rest =>
    let r := purge_loop cb rest
    match cb n.1 n.2 with
    | none => (n :: r.1, r.2)
    | some e => (n :: r.1, e :: r.2)

/-- Result of `lru_purge_staging_impl`. -/
structure PurgeRes (V : Type) where
  state : State V
  invoked : List (K × V)
  unraisable : List CbErr
  propagated : Option CbErr
  deriving DecidableEq, Repr

/-- `lru_purge_staging_impl` (lrudict.c) with the behaviour of the callback
made explicit.  Balks when purging is suspended (unless forced), when there
is nothing to purge, or when the LRUDict critical section or the purge
section is occupied.  Otherwise wipes the staging list, invoking the
callback (if installed) on each staged node; callback errors are routed to
the unraisable hook and never propagate out of this function. -/
def lru_purge_staging_with (s : State V) (cb : K → V → Option CbErr)
    (force : Bool) : PurgeRes V :=
  if !force && s.purgeSuspended then ⟨s, [], [], none⟩
  else if !s.shouldPurge || s.internalBusy || s.purgeBusy then ⟨s, [], [], none⟩
  else if !s.hasCallback then
    ⟨{ s with shouldPurge := false, staging := [] }, [], [], none⟩
  else
    let r := purge_loop cb s.staging
    ⟨{ s with shouldPurge := false, staging := [] }, r.1, r.2, none⟩

/-- `lru_purge_staging_impl` as used by the public operations, with a
well-behaved callback; returns the new state and the `(key, value)` pairs
delivered to the callback. -/
def lru_purge_staging_impl (s : State V) (force : Bool) :
    State V × List (K × V) :=
  let r := lru_purge_staging_with s (fun _ _ => none) force
  (r.state, r.invoked)

/-- Map delivered pairs to callback trace events. -/
def cbEvents (l : List (K × V)) : List (Event V) :=
  l.map (fun n => Event.callbackCall n.1 n.2)

/-- Result of a public operation: the Python-level result, the state after
the call, and the trace of critical-section/callback events. -/
structure OpRes (V : Type) (α : Type) where
  result : Except Err α
  state : State V
  events : List (Event V)
  deriving Repr

/-- Outcome of the Index probe inside `lru_subscript_impl`: a hit returning
the node, a genuine absence of the key, or an error raised by the foreign
`__hash__`/`__eq__` code running inside the probe. -/
inductive SubRes (V : Type) where
  | hit (n : K × V)
  | missAbsent
  | missError (e : Err)
  deriving DecidableEq, Repr

/-- `lru_subscript_impl` (lrudict.c and lrudict_pq.h agree on this
behaviour): probe the dict for the key; when the probe yields no node —
whether because the key is absent or because hashing/equality raised, which
the caller passes in as `herr` — increment `misses`; on a hit, promote the
node to the head unless it already is the head, and increment `hits`. -/
def lru_subscript_impl [DecidableEq V] (s : State V) (k : K)
    (herr : Option Err) : SubRes V × State V :=
  match herr with
  | some e => (.missError e, { s with misses := wrapIncr s.misses })
  | none =>
    match lru_get_node s k with
    | none => (.missAbsent, { s with misses := wrapIncr s.misses })
    | some n =>
      let s1 :=
        if s.order.head? = some n then s
        else lru_add_node_at_head_impl (lru_remove_node_impl s k) n.1 n.2
      (.hit n, { s1 with hits := wrapIncr s1.hits })

/-- `LRU_subscript` (`__getitem__`): critical-section wrapper around
`lru_subscript_impl`; a probe with no node raises (KeyError on a genuine
absence, otherwise the probe error). -/
def LRU_subscript [DecidableEq V] (s : State V) (k : K) (herr : Option Err) :
    OpRes V V :=
  if s.detectConflict && s.internalBusy then ⟨.error .busy, s, []⟩
  else
    let s1 := { s with internalBusy := true }
    let r := lru_subscript_impl s1 k herr
    let s2 := { r.2 with internalBusy := false }
    match r.1 with
    | .hit n => ⟨.ok n.2, s2, [.enterCrit, .leaveCrit]⟩
    | .missAbsent => ⟨.error .keyError, s2, [.enterCrit, .leaveCrit]⟩
    | .missError e => ⟨.error e, s2, [.enterCrit, .leaveCrit]⟩

/-- `LRU_get` as written in lrudict.c: on any probe failure — genuine miss
or an error raised inside the probe — the pending exception is cleared
(`PyErr_Clear`) and the default is returned. -/
def LRU_get [DecidableEq V] (s : State V) (k : K) (d : V) (herr : Option Err) :
    OpRes V V :=
  if s.detectConflict && s.internalBusy then ⟨.error .busy, s, []⟩
  else
    let s1 := { s with internalBusy := true }
    let r := lru_subscript_impl s1 k herr
    let s2 := { r.2 with internalBusy := false }
    match r.1 with
    | .hit n => ⟨.ok n.2, s2, [.enterCrit, .leaveCrit]⟩
    | _ => ⟨.ok d, s2, [.enterCrit, .leaveCrit]⟩

/-- `LRU_get` as written in lrudict_pq.h: an error raised inside the probe
propagates (`if (PyErr_Occurred() || result != NULL) return result`);
only a genuine absence returns the default. -/
def LRU_get_pq [DecidableEq V] (s : State V) (k : K) (d : V) (herr : Option Err) :
    OpRes V V :=
  if s.detectConflict && s.internalBusy then ⟨.error .busy, s, []⟩
  else
    let s1 := { s with internalBusy := true }
    let r := lru_subscript_impl s1 k herr
    let s2 := { r.2 with internalBusy := false }
    match r.1 with
    | .hit n => ⟨.ok n.2, s2, [.enterCrit, .leaveCrit]⟩
    | .missAbsent => ⟨.ok d, s2, [.enterCrit, .leaveCrit]⟩
    | .missError e => ⟨.error e, s2, [.enterCrit, .leaveCrit]⟩

/-- `lru_insert_new_node_impl` (lrudict_pq.h; inlined in lrudict.c): set
the new node in the dict, link it at the head of the Order list, and evict
the tail when the length exceeds `size`. -/
def lru_insert_new_node_impl (s : State V) (k : K) (v : V) : State V :=
  let s1 := { s with dict := k :: s.dict }
  let s2 := lru_add_node_at_head_impl s1 k v
  if s2.dict.length > s2.size then lru_delete_last_impl s2 else s2

/-- Assignment path of `lru_ass_sub_impl` (lrudict.c): if the key is
present, swap the node's value and promote it to the head; if absent,
create a node, insert it into the dict and at the head of the Order list,
and evict the tail when the length exceeds `size`. -/
def lru_ass_sub_assign_impl (s : State V) (k : K) (v : V) : State V :=
  if k ∈ s.dict then
    lru_add_node_at_head_impl (lru_remove_node_impl s k) k v
  else
    lru_insert_new_node_impl s k v

/-- Deletion path of `lru_ass_sub_impl` (lrudict.c): look the key up; on
absence raise KeyError; else delete from dict and detach from the Order
list. -/
def lru_ass_sub_del_impl (s : State V) (k : K) : Except Err Unit × State V :=
  match lru_get_node s k with
  | none => (.error .keyError, s)
  | some n =>
    (.ok (), lru_remove_node_impl { s with dict := s.dict.erase n.1 } k)

/-- `LRU_ass_sub` (lrudict.c): `__setitem__` when a value is given,
`__delitem__` when not.  Enters the critical section, runs the impl, leaves,
then attempts a purge-drain. -/
def LRU_ass_sub (s : State V) (k : K) (v : Option V) : OpRes V Unit :=
  if s.detectConflict && s.internalBusy then ⟨.error .busy, s, []⟩
  else
    let s1 := { s with internalBusy := true }
    match v with
    | some v =>
      let s2 := lru_ass_sub_assign_impl s1 k v
      let s3 := { s2 with internalBusy := false }
      let p := lru_purge_staging_impl s3 false
      ⟨.ok (), p.1, [.enterCrit, .leaveCrit] ++ cbEvents p.2⟩
    | none =>
      let r := lru_ass_sub_del_impl s1 k
      let s3 := { r.2 with internalBusy := false }
      let p := lru_purge_staging_impl s3 false
      ⟨r.1, p.1, [.enterCrit, .leaveCrit] ++ cbEvents p.2⟩

/-- `LRU_setdefault` (lrudict.c): hash once; if the key is present this is
a hit (promote, `hits++`, return the stored value); if absent, insert the
default at the head (evicting the tail if over capacity) and return the
default, touching neither counter.  Purge-drain on exit. -/
def LRU_setdefault (s : State V) (k : K) (d : V) : OpRes V V :=
  if s.detectConflict && s.internalBusy then ⟨.error .busy, s, []⟩
  else
    let s1 := { s with internalBusy := true }
    match lru_get_node s1 k with
    | some n =>
      let s2 := lru_add_node_at_head_impl (lru_remove_node_impl s1 k) n.1 n.2
      let s3 := { s2 with hits := wrapIncr s2.hits }
      let s4 := { s3 with internalBusy := false }
      let p := lru_purge_staging_impl s4 false
      ⟨.ok n.2, p.1, [.enterCrit, .leaveCrit] ++ cbEvents p.2⟩
    | none =>
      let s2 := lru_insert_new_node_impl s1 k d
      let s3 := { s2 with internalBusy := false }
      let p := lru_purge_staging_impl s3 false
      ⟨.ok d, p.1, [.enterCrit, .leaveCrit] ++ cbEvents p.2⟩

/-- `LRU_pop` (lrudict.c): `_PyDict_Pop`; on a hit `hits++`, detach the
node, return its value; on a miss `misses++`, return the default when
given, else KeyError.  No purge-drain. -/
def LRU_pop (s : State V) (k : K) (d : Option V) : OpRes V V :=
  if s.detectConflict && s.internalBusy then ⟨.error .busy, s, []⟩
  else
    let s1 := { s with internalBusy := true }
    match lru_get_node s1 k with
    | some n =>
      let s2 := lru_remove_node_impl { s1 with dict := s1.dict.erase n.1 } k
      let s3 := { s2 with hits := wrapIncr s2.hits }
      ⟨.ok n.2, { s3 with internalBusy := false }, [.enterCrit, .leaveCrit]⟩
    | none =>
      let s2 := { s1 with misses := wrapIncr s1.misses }
      match d with
      | some dv =>
        ⟨.ok dv, { s2 with internalBusy := false }, [.enterCrit, .leaveCrit]⟩
      | none =>
        ⟨.error .keyError, { s2 with internalBusy := false },
          [.enterCrit, .leaveCrit]⟩

/-- `LRU_popitem` (lrudict.c): remove and return the MRU node (or the LRU
node when `leastRecent`); KeyError on an empty LRUDict.  Counters are not
touched; no purge-drain. -/
def LRU_popitem (s : State V) (leastRecent : Bool) : OpRes V (K × V) :=
  if s.detectConflict && s.internalBusy then ⟨.error .busy, s, []⟩
  else
    let s1 := { s with internalBusy := true }
    match (if leastRecent then s1.order.getLast? else s1.order.head?) with
    | none =>
      ⟨.error .keyError, { s1 with internalBusy := false },
        [.enterCrit, .leaveCrit]⟩
    | some n =>
      let s2 := lru_remove_node_impl { s1 with dict := s1.dict.erase n.1 } n.1
      ⟨.ok n, { s2 with internalBusy := false }, [.enterCrit, .leaveCrit]⟩

/-- `LRU_clear` (lrudict.c): reset `first`/`last`, clear the dict, zero
both counters.  The staging list is not touched and no purge-drain is
attempted, so the callback is never invoked on the displaced items. -/
def LRU_clear (s : State V) : OpRes V Unit :=
  if s.detectConflict && s.internalBusy then ⟨.error .busy, s, []⟩
  else
    let s1 : State V :=
      { s with
          internalBusy := true, dict := [], order := [], hits := 0, misses := 0 }
    ⟨.ok (), { s1 with internalBusy := false }, [.enterCrit, .leaveCrit]⟩

/-- The `while (lru_length_impl(self) > newsize) lru_delete_last_impl(self)`
loop of `lru_set_size_impl`, with fuel (the C loop is unbounded; under the
structure invariant `dict.length` evictions always suffice). -/
def lru_evict_loop : Nat → State V → State V
  | 0, s => s
  | f + 1, s =>
    if s.dict.length > s.size then lru_evict_loop f (lru_delete_last_impl s)
    else s

/-- `lru_set_size_impl` (lrudict.c): refuse a non-positive size with
ValueError before any state change; else set `size` and evict the tail
until the length fits. -/
def lru_set_size_impl (s : State V) (n : Int) : Except Err Unit × State V :=
  if n ≤ 0 then (.error .valueError, s)
  else
    let s1 := { s with size := n.toNat }
    (.ok (), lru_evict_loop s1.dict.length s1)

/-- A Python-level argument to the `size` setter: an integer or not. -/
inductive PyVal where
  | int (n : Int)
  | notInt
  deriving DecidableEq, Repr

/-- `LRU_size_setter` (lrudict.c): refuse a non-integer with TypeError
before entering the critical section; else enter, run
`lru_set_size_impl`, leave, and attempt a purge-drain. -/
def LRU_size_setter (s : State V) (v : PyVal) : OpRes V Unit :=
  match v with
  | .notInt => ⟨.error .typeError, s, []⟩
  | .int n =>
    if s.detectConflict && s.internalBusy then ⟨.error .busy, s, []⟩
    else
      let s1 := { s with internalBusy := true }
      let r := lru_set_size_impl s1 n
      let s2 := { r.2 with internalBusy := false }
      let p := lru_purge_staging_impl s2 false
      ⟨r.1, p.1, [.enterCrit, .leaveCrit] ++ cbEvents p.2⟩

/-- `LRU_callback_setter` (lrudict.c): guarded by the critical section;
installs or removes the callback. -/
def LRU_callback_setter (s : State V) (cb : Bool) : OpRes V Unit :=
  if s.detectConflict && s.internalBusy then ⟨.error .busy, s, []⟩
  else
    ⟨.ok (), { s with hasCallback := cb, internalBusy := false },
      [.enterCrit, .leaveCrit]⟩

/-- `LRU_purge` (lrudict.c): set `should_purge` and force a drain. -/
def LRU_purge (s : State V) : OpRes V Unit :=
  let s1 := { s with shouldPurge := true }
  let p := lru_purge_staging_impl s1 true
  ⟨.ok (), p.1, cbEvents p.2⟩

/-- `lru_contains_impl` / `LRU_contains` (lrudict.c): dict membership; no
critical section, no change to order or counters. -/
def LRU_contains (s : State V) (k : K) : OpRes V Bool :=
  ⟨.ok (decide (k ∈ s.dict)), s, []⟩

/-- `LRU_keys` (lrudict.c `collect` with `get_key`): keys in MRU-to-LRU
order, read off the Order list from `first`. -/
def LRU_keys (s : State V) : List K :=
  s.order.map Prod.fst

/-- `LRU_init` (lrudict.c): fresh dict and staging list, size validated
through `lru_set_size_impl`, callback installed, flags and counters reset
(`detect_conflict` defaults to true). -/
def LRU_init (V : Type) (n : Int) (cb : Bool) : Except Err (State V) :=
  let s0 : State V :=
    { size := 0, dict := [], order := [], staging := [], hasCallback := false,
      hits := 0, misses := 0, shouldPurge := false, internalBusy := false,
      purgeBusy := false, purgeSuspended := false, detectConflict := true }
  let r := lru_set_size_impl s0 n
  match r.1 with
  | .error e => .error e
  | .ok _ => .ok { r.2 with hasCallback := cb }

/-- `lru_push_impl` (lrudict_pq.h): push a key-value pair.  On a new key,
create and insert a node (evicting the tail when over capacity) and report
no old value; on an existing key, swap the node's value (promoting the node
to the head unless it already is there) and report the replaced old value,
which the caller releases outside the critical section. -/
def lru_push_impl [DecidableEq V] (s : State V) (k : K) (v : V) :
    State V × Option V :=
  match lru_get_node s k with
  | none => (lru_insert_new_node_impl s k v, none)
  | some n =>
    let s1 :=
      if s.order.head? = some n then { s with order := (k, v) :: s.order.tail }
      else lru_add_node_at_head_impl (lru_remove_node_impl s k) k v
    (s1, some n.2)

/-- Result of `lru_update_fill_buffer`: the state after this pass, the
pairs pushed during the pass (in source order), the unconsumed remainder of
the source, whether the source was exhausted (`ret_status == 0`), and the
number `n_written` of replaced old values buffered during the pass. -/
structure FillRes (V : Type) where
  state : State V
  pushed : List (K × V)
  remaining : List (K × V)
  exhausted : Bool
  buffered : Nat
  deriving Repr

/-- `lru_update_fill_buffer` (lrudict_pq.h): one critical-section pass of
`update`.  While the count `i` of buffered replaced-old-values is below the
buffer length, take the next pair from the source and push it; `i` advances
only when the push replaced an existing value.  Stops with
`exhausted = true` when the source runs out, or with `exhausted = false`
when the buffer is full. -/
def lru_update_fill_buffer [DecidableEq V] (buflen : Nat) :
    List (K × V) → State V → Nat → FillRes V
  | [], s, i =>
    if i < buflen then ⟨s, [], [], true, i⟩ else ⟨s, [], [], false, i⟩
  | n :: rest, s, i =>
    if i < buflen then
      let r := lru_push_impl s n.1 n.2
      let i2 := if r.2.isSome then i + 1 else i
      let t := lru_update_fill_buffer buflen rest r.1 i2
      ⟨t.state, n :: t.pushed, t.remaining, t.exhausted, t.buffered⟩
    else ⟨s, [], n :: rest, false, i⟩

/-- Result of `lru_update_with`: final state, the successive
critical-section passes (each listed as the pairs it pushed), the number of
replaced old values each pass buffered, a failure (only the busy-conflict
check can fail in this model), and the critical-section trace events. -/
structure UpdRes (V : Type) where
  state : State V
  batches : List (List (K × V))
  bufcounts : List Nat
  err : Option Err
  events : List (Event V)
  deriving Repr

/-- The `do ... while (!leave)` loop of `lru_update_with` (lrudict_pq.h):
each pass checks the busy conflict, enters the critical section, fills one
buffer of replaced values, leaves, and releases the buffered values; it
leaves the loop when the source is exhausted or on failure.  Fuel bounds
the recursion (one pass always consumes source pairs when the buffer
length is positive; `LRU_update` passes enough fuel). -/
def lru_update_with [DecidableEq V] (buflen : Nat) :
    Nat → State V → List (K × V) → UpdRes V
  | 0, s, _ => ⟨s, [], [], none, []⟩
  | fuel + 1, s, src =>
    if s.detectConflict && s.internalBusy then ⟨s, [], [], some .busy, []⟩
    else
      let s1 := { s with internalBusy := true }
      let t := lru_update_fill_buffer buflen src s1 0
      let s2 := { t.state with internalBusy := false }
      if t.exhausted then
        ⟨s2, [t.pushed], [t.buffered], none, [.enterCrit, .leaveCrit]⟩
      else
        let r := lru_update_with buflen fuel s2 t.remaining
        ⟨r.state, t.pushed :: r.batches, t.buffered :: r.bufcounts, r.err,
          [.enterCrit, .leaveCrit] ++ r.events⟩

/-- `LRU_BATCH_MAX` (lrudict_pq.h). -/
def LRU_BATCH_MAX : Nat := 128

/-- `LRU_update` (lrudict_pq.h): allocate a buffer of
`min(size, LRU_BATCH_MAX)` slots for replaced old values, run
`lru_update_with` on the source, and attempt one purge-drain at the end
(also on the failure path).  Returns the batches for inspection. -/
def LRU_update [DecidableEq V] (s : State V) (src : List (K × V)) :
    OpRes V Unit × List (List (K × V)) :=
  let buflen := min s.size LRU_BATCH_MAX
  let r := lru_update_with buflen (src.length + 1) s src
  let p := lru_purge_staging_impl r.state false
  (⟨match r.err with | some e => .error e | none => .ok (),
    p.1, r.events ++ cbEvents p.2⟩, r.batches)

/-- The purge queue `LRUDict_pq` (lrudict_pq.h): a Python list of staged
nodes with head/tail cursors and the pending-workers counter. -/
structure PQ (V : Type) where
  lst : List (K × V)
  head : Nat
  tail : Nat
  pending : Nat
  deriving DecidableEq, Repr

/-- `UINT_MAX`, the `pending_requests` saturation bound in `lrupq_purge`. -/
def UINT_MAX : Nat := 2 ^ 32 - 1

/-- `lrupq_err_bad` (lrudict_statstype.h): the four exception classes that
must not be swallowed by the purge loop — RecursionError, SystemError,
MemoryError, SystemExit. -/
def lrupq_err_bad : CbErr → Bool
  | .recursionLimit => true
  | .systemError => true
  | .outOfMemory => true
  | .shutdown => true
  | .userError => false

/-- The claimed-batch loop of the final-generation `lrupq_purge`
(lrudict_statstype.h): walk the batch in ascending order invoking the
callback.  A normal return continues; a swallowable error is written to
the unraisable hook, cleared, and iteration continues; a non-swallowable
error (`lrupq_err_bad`) sets the failure flag and breaks out of the loop.
Returns the invoked nodes, the unraisable-routed errors, and the breaking
error if any. -/
def lrupq_loop (cb : K → V → Option CbErr) :
    List (K × V) → List (K × V) × List CbErr × Option CbErr
  | [] => ([], [], none)
  | n :: rest =>
    match cb n.1 n.2 with
    | none =>
      let r := lrupq_loop cb rest
      (n :: r.1, r.2.1, r.2.2)
    | some e =>
      if lrupq_err_bad e then ([n], [], some e)
      else
        let r := lrupq_loop cb rest
        (n :: r.1, e :: r.2.1, r.2.2)

/-- Result of `lrupq_purge`: the queue afterwards, the invoked nodes, the
unraisable-routed errors, the propagated (non-swallowed) error, and the C
return value (`number reclaimed`, `0`, or `-2` on unrecoverable callback
failure). -/
structure PQRes (V : Type) where
  q : PQ V
  invoked : List (K × V)
  unraisable : List CbErr
  propagated : Option CbErr
  ret : Int
  deriving DecidableEq, Repr

/-- `lrupq_purge` (lrudict_statstype.h, final generation): snapshot the
batch `[head, tail)`, balk when empty or when `pending` saturates, claim up
to the snapshot tail, run the callback loop over the claimed batch; on a
non-swallowable callback failure return `-2` with the error left set for
the caller; otherwise, as the last worker out, reclaim the consumed prefix
and shift the cursors down. -/
def lrupq_purge [DecidableEq V] (q : PQ V) (cb : Option (K → V → Option CbErr)) :
    PQRes V :=
  if q.tail = q.head then ⟨q, [], [], none, 0⟩
  else if q.pending = UINT_MAX then ⟨q, [], [], none, 0⟩
  else
    let q1 : PQ V := { q with head := q.tail }
    let q2 : PQ V :=
      ⟨q1.lst.drop q1.head, 0, q1.tail - q1.head, q1.pending⟩
    match cb with
    | none =>
      if q1.pending = 0 then ⟨q2, [], [], none, (q1.head : Int)⟩
      else ⟨q1, [], [], none, 0⟩
    | some f =>
      let batch := (q.lst.drop q.head).take (q.tail - q.head)
      let r := lrupq_loop f batch
      match r.2.2 with
      | some e => ⟨q1, r.1, r.2.1, some e, -2⟩
      | none =>
        if q1.pending = 0 then ⟨q2, r.1, r.2.1, none, (q1.head : Int)⟩
        else ⟨q1, r.1, r.2.1, none, 0⟩

/-- Modelled from the spec: the final-generation public-operation glue that
invokes the purge-queue drain after leaving the critical section and
propagates a non-swallowed callback failure to the caller of the public
operation that triggered the drain ("abandon the loop and propagate to the
caller").  The final-generation `lrudict.c` that contains this glue is not
among the sources; only its header (`lrudict.h`, with the `purge_queue`
member) and the drain itself (`lrupq_purge`) are. -/
def lru_purge_queue_and_propagate [DecidableEq V] (q : PQ V)
    (cb : Option (K → V → Option CbErr)) : Except CbErr (PQ V) × PQRes V :=
  let r := lrupq_purge q cb
  match r.propagated with
  | some e => (.error e, r)
  | none => (.ok r.q, r)

/-- The raised error of a Python-level result, if any. -/
def errOf : Except Err α → Option Err
  | .error e => some e
  | .ok _ => none

/-- The errors a callback raised that the drain routed to the unraisable
hook, in ascending item order, for a run over staged items it fully
traverses. -/
def swallowedErrors (cb : K → V → Option CbErr) (l : List (K × V)) :
    List CbErr :=
  l.filterMap (fun n => cb n.1 n.2)

/-- A public operation on the LRUDict, as dispatched through the method
table and the mapping protocol. -/
inductive Op (V : Type) where
  | assign (k : K) (v : V)
  | del (k : K)
  | lookup (k : K)
  | getD (k : K) (d : V)
  | setdefault (k : K) (d : V)
  | pop (k : K) (d : Option V)
  | popitem (leastRecent : Bool)
  | clear
  | setSize (n : Int)
  | setCallback (cb : Bool)
  | update (src : List (K × V))
  | purge
  | contains (k : K)
  deriving Repr

/-- Run one public operation, keeping the state, the error (if raised) and
the event trace. -/
def stepFull [DecidableEq V] (s : State V) :
    Op V → State V × Option Err × List (Event V)
  | .assign k v =>
    let r := LRU_ass_sub s k (some v)
    (r.state, errOf r.result, r.events)
  | .del k =>
    let r := LRU_ass_sub s k none
    (r.state, errOf r.result, r.events)
  | .lookup k =>
    let r := LRU_subscript s k none
    (r.state, errOf r.result, r.events)
  | .getD k d =>
    let r := LRU_get s k d none
    (r.state, errOf r.result, r.events)
  | .setdefault k d =>
    let r := LRU_setdefault s k d
    (r.state, errOf r.result, r.events)
  | .pop k d =>
    let r := LRU_pop s k d
    (r.state, errOf r.result, r.events)
  | .popitem lr =>
    let r := LRU_popitem s lr
    (r.state, errOf r.result, r.events)
  | .clear =>
    let r := LRU_clear s
    (r.state, errOf r.result, r.events)
  | .setSize n =>
    let r := LRU_size_setter s (.int n)
    (r.state, errOf r.result, r.events)
  | .setCallback cb =>
    let r := LRU_callback_setter s cb
    (r.state, errOf r.result, r.events)
  | .update src =>
    let r := LRU_update s src
    (r.1.state, errOf r.1.result, r.1.events)
  | .purge =>
    let r := LRU_purge s
    (r.state, errOf r.result, r.events)
  | .contains k =>
    let r := LRU_contains s k
    (r.state, errOf r.result, r.events)

/-- The state observed after a public operation. -/
def step [DecidableEq V] (s : State V) (op : Op V) : State V :=
  (stepFull s op).1

/-- Run a sequence of public operations. -/
def runOps [DecidableEq V] (s : State V) (ops : List (Op V)) : State V :=
  ops.foldl step s

/-- The write-style operations: those that enter the LRUDict critical
section through `LRU_ENTER_CRIT` (or its inline copy in
`lru_update_with`) to mutate the container. -/
def writeStyle : Op V → Bool
  | .assign _ _ => true
  | .del _ => true
  | .setdefault _ _ => true
  | .pop _ _ => true
  | .popitem _ => true
  | .clear => true
  | .setSize _ => true
  | .setCallback _ => true
  | .update _ => true
  | _ => false

/-- Structure invariant of the LRUDict between public operations: the dict
key set has no duplicates and is a permutation of the keys on the Order
list (each key maps to the unique node carrying it), the length is bounded
by the capacity, and the capacity is positive. -/
def Inv (s : State V) : Prop :=
  s.dict.Nodup ∧ s.dict.Perm (s.order.map Prod.fst) ∧
    s.order.length ≤ s.size ∧ 1 ≤ s.size

/-- One step of the trace replay for `cbOutsideCrit`: the first component
stays true as long as no callback invocation is seen while the second
component (are we inside the critical section?) is set. -/
def cbStep : (Bool × Bool) → Event V → (Bool × Bool)
  | acc, .enterCrit => (acc.1, true)
  | acc, .leaveCrit => (acc.1, false)
  | acc, .callbackCall _ _ => (acc.1 && !acc.2, acc.2)

/-- Replay a trace checking that no callback invocation happens inside the
critical section: scanning left to right, `callbackCall` must only occur
while the flag says the section is not occupied. -/
def cbOutsideCrit (evs : List (Event V)) : Bool :=
  (evs.foldl cbStep (true, false)).1

/-- Whether a trace event is a callback invocation. -/
def isCbEvent : Event V → Bool
  | .callbackCall _ _ => true
  | _ => false

/-! Helper lemmas about lists of nodes. -/

theorem map_fst_eraseP (l : List (K × V)) (k : K) :
    (l.eraseP (fun p => p.1 == k)).map Prod.fst = (l.map Prod.fst).erase k := by
  induction l with
  | nil => rfl
  | cons p t ih =>
    by_cases h : p.1 = k
    · simp [List.eraseP_cons, List.erase_cons, h]
    · simp [List.eraseP_cons, List.erase_cons, h, ih]

theorem map_fst_dropLast (l : List (K × V)) :
    (l.dropLast).map Prod.fst = (l.map Prod.fst).dropLast := by
  simp [List.dropLast_eq_take, List.map_take]

theorem getLast?_map_fst (l : List (K × V)) :
    (l.map Prod.fst).getLast? = l.getLast?.map Prod.fst := by
  induction l with
  | nil => rfl
  | cons p t ih =>
    cases t with
    | nil => rfl
    | cons q u => simpa [List.getLast?_cons_cons] using ih

theorem erase_getLast_of_nodup (ks : List K) (a : K) (hnd : ks.Nodup)
    (h : ks.getLast? = some a) : ks.erase a = ks.dropLast := by
  have hne : ks ≠ [] := by
    intro hmt
    rw [hmt] at h
    simp at h
  have hdec : ks = ks.dropLast ++ [ks.getLast hne] := (List.dropLast_append_getLast hne).symm
  have ha : ks.getLast hne = a := by
    have := List.getLast?_eq_getLast ks hne
    rw [this] at h
    exact Option.some.inj h
  have hnotmem : a ∉ ks.dropLast := by
    intro hmem
    have : ¬ks.dropLast.Nodup ∨ a ∈ ks.dropLast → a ∉ [ks.getLast hne] → True := by tauto
    have hnd2 : (ks.dropLast ++ [ks.getLast hne]).Nodup := by rw [← hdec]; exact hnd
    have hdisj := (List.nodup_append.mp hnd2).2.2
    exact absurd (by simp [ha]) (hdisj hmem)
  calc ks.erase a = (ks.dropLast ++ [ks.getLast hne]).erase a := by rw [← hdec]
    _ = ks.dropLast ++ ([ks.getLast hne].erase a) := List.erase_append_right _ hnotmem
    _ = ks.dropLast := by simp [ha]

theorem eraseP_eq_tail_of_head (l : List (K × V)) (n : K × V)
    (p : K × V → Bool) (h : l.head? = some n) (hp : p n = true) :
    l.eraseP p = l.tail := by
  cases l with
  | nil => simp at h
  | cons q t =>
    have : q = n := by simpa using h
    subst this
    simp [List.eraseP_cons, hp]

/-! Field-preservation lemmas for the purge-drain. -/

theorem purge_fields (s : State V) (force : Bool) :
    (lru_purge_staging_impl s force).1.dict = s.dict ∧
    (lru_purge_staging_impl s force).1.order = s.order ∧
    (lru_purge_staging_impl s force).1.size = s.size ∧
    (lru_purge_staging_impl s force).1.hits = s.hits ∧
    (lru_purge_staging_impl s force).1.misses = s.misses ∧
    (lru_purge_staging_impl s force).1.hasCallback = s.hasCallback ∧
    (lru_purge_staging_impl s force).1.internalBusy = s.internalBusy ∧
    (lru_purge_staging_impl s force).1.detectConflict = s.detectConflict := by
  unfold lru_purge_staging_impl lru_purge_staging_with
  split
  · simp
  · split
    · simp
    · split <;> simp

/-! Primitive specification lemmas used for the structure invariant. -/

theorem delete_last_spec (s : State V) (hnd : s.dict.Nodup)
    (hperm : s.dict.Perm (s.order.map Prod.fst)) :
    (lru_delete_last_impl s).dict.Nodup ∧
    (lru_delete_last_impl s).dict.Perm
      ((lru_delete_last_impl s).order.map Prod.fst) ∧
    (lru_delete_last_impl s).order = s.order.dropLast ∧
    (lru_delete_last_impl s).size = s.size ∧
    (lru_delete_last_impl s).hasCallback = s.hasCallback := by
  unfold lru_delete_last_impl
  cases h : s.order.getLast? with
  | none =>
    have ho : s.order = [] := by
      cases ho : s.order with
      | nil => rfl
      | cons a t => rw [ho] at h; simp at h
    exact ⟨hnd, hperm, by simp [ho], rfl, rfl⟩
  | some n =>
    have hkeys : (s.order.map Prod.fst).getLast? = some n.1 := by
      rw [getLast?_map_fst, h]; rfl
    have hknd : (s.order.map Prod.fst).Nodup := hperm.nodup hnd
    have herase : (s.order.map Prod.fst).erase n.1 = (s.order.map Prod.fst).dropLast :=
      erase_getLast_of_nodup _ _ hknd hkeys
    have hperm2 : (s.dict.erase n.1).Perm ((s.order.map Prod.fst).dropLast) := by
      have h2 := hperm.erase n.1
      rw [herase] at h2
      exact h2
    by_cases hcb : s.hasCallback <;>
      simp [hcb, hnd.erase n.1, hperm2, map_fst_dropLast]

theorem lru_get_node_some (s : State V) (k : K) (n : K × V)
    (h : lru_get_node s k = some n) :
    k ∈ s.dict ∧ n ∈ s.order ∧ n.1 = k := by
  unfold lru_get_node at h
  by_cases hk : k ∈ s.dict
  · rw [if_pos hk] at h
    refine ⟨hk, List.mem_of_find?_eq_some h, ?_⟩
    have := List.find?_some h
    simpa using this
  · rw [if_neg hk] at h
    exact absurd h (by simp)

theorem lru_get_node_none (s : State V) (k : K)
    (hperm : s.dict.Perm (s.order.map Prod.fst))
    (h : lru_get_node s k = none) : k ∉ s.dict := by
  intro hk
  unfold lru_get_node at h
  rw [if_pos hk] at h
  have hmem : k ∈ s.order.map Prod.fst := hperm.mem_iff.mp hk
  obtain ⟨n, hn, rfl⟩ := List.mem_map.mp hmem
  have : (s.order.find? (fun p => p.1 == n.1)).isSome := by
    rw [List.find?_isSome]
    exact ⟨n, hn, by simp⟩
  rw [h] at this
  simp at this

theorem promote_spec (s : State V) (k : K) (v : V)
    (hperm : s.dict.Perm (s.order.map Prod.fst))
    (hkmem : k ∈ s.order.map Prod.fst) :
    (lru_add_node_at_head_impl (lru_remove_node_impl s k) k v).dict = s.dict ∧
    (lru_add_node_at_head_impl (lru_remove_node_impl s k) k v).order.map
      Prod.fst = k :: (s.order.map Prod.fst).erase k ∧
    (lru_add_node_at_head_impl (lru_remove_node_impl s k) k v).dict.Perm
      ((lru_add_node_at_head_impl (lru_remove_node_impl s k) k v).order.map
        Prod.fst) ∧
    (lru_add_node_at_head_impl (lru_remove_node_impl s k) k v).order.length =
      s.order.length ∧
    (lru_add_node_at_head_impl (lru_remove_node_impl s k) k v).size = s.size ∧
    (lru_add_node_at_head_impl (lru_remove_node_impl s k) k v).staging =
      s.staging := by
  have hmapkeys :
      ((lru_add_node_at_head_impl (lru_remove_node_impl s k) k v).order.map
        Prod.fst) = k :: (s.order.map Prod.fst).erase k := by
    simp [lru_add_node_at_head_impl, lru_remove_node_impl, map_fst_eraseP]
  refine ⟨rfl, hmapkeys, ?_, ?_, rfl, rfl⟩
  · rw [hmapkeys]
    exact hperm.trans (List.perm_cons_erase hkmem)
  · have h1 : (s.order.eraseP (fun p => p.1 == k)).length =
        s.order.length - 1 := by
      have := congrArg List.length (map_fst_eraseP s.order k)
      simpa [List.length_erase_of_mem hkmem] using this
    have h2 : 1 ≤ s.order.length := by
      cases ho : s.order with
      | nil => rw [ho] at hkmem; simp at hkmem
      | cons a t => simp [ho]
    simp [lru_add_node_at_head_impl, lru_remove_node_impl, h1]
    omega

theorem insert_new_spec (s : State V) (k : K) (v : V)
    (hnd : s.dict.Nodup) (hperm : s.dict.Perm (s.order.map Prod.fst))
    (hk : k ∉ s.dict) (hlen : s.order.length ≤ s.size) :
    (lru_insert_new_node_impl s k v).dict.Nodup ∧
    (lru_insert_new_node_impl s k v).dict.Perm
      ((lru_insert_new_node_impl s k v).order.map Prod.fst) ∧
    (lru_insert_new_node_impl s k v).order.length ≤ s.size ∧
    (lru_insert_new_node_impl s k v).size = s.size ∧
    (lru_insert_new_node_impl s k v).hasCallback = s.hasCallback ∧
    (lru_insert_new_node_impl s k v).order =
      (if s.order.length + 1 > s.size then ((k, v) :: s.order).dropLast
       else (k, v) :: s.order) := by
  have hlendict : s.dict.length = s.order.length := by
    simpa using hperm.length_eq
  have hnd2 : (k :: s.dict).Nodup := by simp [hnd, hk]
  have hperm2 : (k :: s.dict).Perm (((k, v) :: s.order).map Prod.fst) := by
    simpa using hperm.cons k
  unfold lru_insert_new_node_impl lru_add_node_at_head_impl
  by_cases hcond : s.dict.length + 1 > s.size
  · have hif : ((s.dict.length + 1 > s.size) = True) := by simp [hcond]
    have hd := delete_last_spec
      ({ s with dict := k :: s.dict, order := (k, v) :: s.order }) hnd2 hperm2
    simp only [List.length_cons] at *
    rw [if_pos (by simpa using hcond)]
    refine ⟨hd.1, hd.2.1, ?_, ?_, hd.2.2.2.2, ?_⟩
    · rw [hd.2.2.1]
      simp only [List.dropLast_cons_of_ne_nil, List.length_dropLast]
      simp
      omega
    · rw [hd.2.2.2.1]
    · rw [hd.2.2.1, if_pos (by omega : s.order.length + 1 > s.size)]
  · rw [if_neg (by simpa using hcond)]
    refine ⟨hnd2, hperm2, by simp; omega, rfl, rfl, ?_⟩
    rw [if_neg (by omega : ¬s.order.length + 1 > s.size)]

theorem Inv_congr (s t : State V) (hd : t.dict = s.dict)
    (ho : t.order = s.order) (hs : t.size = s.size) (h : Inv s) : Inv t := by
  unfold Inv at *
  rw [hd, ho, hs]
  exact h

theorem purge_loop_none (l : List (K × V)) :
    purge_loop (V := V) (fun _ _ => none) l = (l, []) := by
  induction l with
  | nil => rfl
  | cons n t ih => simp [purge_loop, ih]

theorem Inv_purge (s : State V) (force : Bool) (h : Inv s) :
    Inv (lru_purge_staging_impl s force).1 := by
  have hf := purge_fields s force
  exact Inv_congr _ _ hf.1 hf.2.1 hf.2.2.1 h

theorem purge_delivers (s : State V) (h1 : s.purgeSuspended = false)
    (h2 : s.shouldPurge = true) (h3 : s.internalBusy = false)
    (h4 : s.purgeBusy = false) (h5 : s.hasCallback = true) :
    lru_purge_staging_impl s false =
      ({ s with shouldPurge := false, staging := [] }, s.staging) := by
  unfold lru_purge_staging_impl lru_purge_staging_with
  simp [h1, h2, h3, h4, h5, purge_loop_none]

theorem delete_last_staging (s : State V) (n : K × V)
    (h : s.order.getLast? = some n) (hcb : s.hasCallback = true) :
    (lru_delete_last_impl s).staging = s.staging ++ [n] ∧
    (lru_delete_last_impl s).shouldPurge = true := by
  unfold lru_delete_last_impl
  rw [h]
  simp [hcb]

theorem Inv_erase_node (s : State V) (k : K) (h : Inv s) :
    Inv (lru_remove_node_impl { s with dict := s.dict.erase k } k) := by
  obtain ⟨hnd, hperm, hlen, hsz⟩ := h
  refine ⟨hnd.erase k, ?_, ?_, hsz⟩
  · show (s.dict.erase k).Perm
      ((s.order.eraseP (fun p => p.1 == k)).map Prod.fst)
    rw [map_fst_eraseP]
    exact hperm.erase k
  · show (s.order.eraseP (fun p => p.1 == k)).length ≤ s.size
    exact le_trans (List.eraseP_sublist s.order).length_le hlen

theorem Inv_push (s : State V) (k : K) (v : V) [DecidableEq V] (h : Inv s) :
    Inv (lru_push_impl s k v).1 ∧ (lru_push_impl s k v).1.size = s.size := by
  obtain ⟨hnd, hperm, hlen, hsz⟩ := h
  unfold lru_push_impl
  cases hn : lru_get_node s k with
  | none =>
    have hk : k ∉ s.dict := lru_get_node_none s k hperm hn
    have hi := insert_new_spec s k v hnd hperm hk hlen
    exact ⟨⟨hi.1, hi.2.1, hi.2.2.2.1 ▸ hi.2.2.1,
      hi.2.2.2.1 ▸ hsz⟩, hi.2.2.2.1⟩
  | some n =>
    obtain ⟨hk, hmem, hk1⟩ := lru_get_node_some s k n hn
    have hkmem : k ∈ s.order.map Prod.fst :=
      List.mem_map.mpr ⟨n, hmem, hk1⟩
    obtain ⟨hd, hm, hp, hl, hs', hst⟩ := promote_spec s k v hperm hkmem
    dsimp only
    by_cases hh : s.order.head? = some n
    · rw [if_pos hh]
      have htail : (k, v) :: s.order.tail =
          (lru_add_node_at_head_impl (lru_remove_node_impl s k) k v).order := by
        show _ = (k, v) :: s.order.eraseP (fun p => p.1 == k)
        rw [eraseP_eq_tail_of_head s.order n _ hh (by simp [hk1])]
      refine ⟨⟨hnd, ?_, ?_, hsz⟩, rfl⟩
      · show s.dict.Perm (((k, v) :: s.order.tail).map Prod.fst)
        rw [htail]
        exact hd ▸ hp
      · show ((k, v) :: s.order.tail).length ≤ s.size
        rw [htail, hl]
        exact hlen
    · rw [if_neg hh]
      exact ⟨⟨hd ▸ hnd, hp, by rw [hl, hs']; exact hlen, hs' ▸ hsz⟩, hs'⟩

theorem evict_loop_spec :
    ∀ (f : Nat) (s : State V), s.dict.Nodup →
    s.dict.Perm (s.order.map Prod.fst) → s.order.length ≤ f →
    (lru_evict_loop f s).dict.Nodup ∧
    (lru_evict_loop f s).dict.Perm
      ((lru_evict_loop f s).order.map Prod.fst) ∧
    (lru_evict_loop f s).order = s.order.take s.size ∧
    (lru_evict_loop f s).size = s.size
  | 0, s, hnd, hperm, hf => by
    have ho : s.order = [] := List.eq_nil_of_length_eq_zero (by omega)
    have hdn : s.dict = [] := by
      have h2 := hperm
      rw [ho] at h2
      exact List.Perm.eq_nil (by simpa using h2)
    simp [lru_evict_loop, hnd, hperm, ho, hdn]
  | f + 1, s, hnd, hperm, hf => by
    have hlendict : s.dict.length = s.order.length := by
      simpa using hperm.length_eq
    unfold lru_evict_loop
    by_cases hcond : s.dict.length > s.size
    · rw [if_pos hcond]
      obtain ⟨hnd2, hperm2, ho2, hs2, _⟩ := delete_last_spec s hnd hperm
      have hlen2 : (lru_delete_last_impl s).order.length ≤ f := by
        rw [ho2]
        simp only [List.length_dropLast]
        omega
      obtain ⟨ha, hb, hc, hd⟩ :=
        evict_loop_spec f (lru_delete_last_impl s) hnd2 hperm2 hlen2
      refine ⟨ha, hb, ?_, by rw [hd, hs2]⟩
      rw [hc, ho2, hs2, List.dropLast_eq_take, List.take_take]
      congr 1
      omega
    · rw [if_neg hcond]
      exact ⟨hnd, hperm, (List.take_of_length_le (by omega)).symm, rfl⟩

theorem Inv_set_size (s : State V) (n : Int) (h : Inv s) :
    Inv (lru_set_size_impl s n).2 := by
  unfold lru_set_size_impl
  by_cases hneg : n ≤ 0
  · rw [if_pos hneg]
    exact h
  · rw [if_neg hneg]
    obtain ⟨hnd, hperm, hlen, hsz⟩ := h
    have hlendict : s.dict.length = s.order.length := by
      simpa using hperm.length_eq
    obtain ⟨ha, hb, hc, hd⟩ := evict_loop_spec
      ({ s with size := n.toNat }).dict.length { s with size := n.toNat }
      hnd hperm (by simp [hlendict])
    refine ⟨ha, hb, ?_, ?_⟩
    · rw [hc, hd]
      simp
    · rw [hd]
      simp
      omega

theorem Inv_fill_buffer [DecidableEq V] (buflen : Nat) :
    ∀ (src : List (K × V)) (s : State V) (i : Nat), Inv s →
    Inv (lru_update_fill_buffer buflen src s i).state ∧
    (lru_update_fill_buffer buflen src s i).state.size = s.size
  | [], s, i, h => by
    unfold lru_update_fill_buffer
    split <;> exact ⟨h, rfl⟩
  | n :: rest, s, i, h => by
    unfold lru_update_fill_buffer
    by_cases hc : i < buflen
    · rw [if_pos hc]
      obtain ⟨hp, hps⟩ := Inv_push s n.1 n.2 h
      obtain ⟨hr, hrs⟩ :=
        Inv_fill_buffer buflen rest (lru_push_impl s n.1 n.2).1
          (if (lru_push_impl s n.1 n.2).2.isSome then i + 1 else i) hp
      exact ⟨hr, by rw [hrs, hps]⟩
    · rw [if_neg hc]
      exact ⟨h, rfl⟩

theorem Inv_update_with [DecidableEq V] (buflen : Nat) :
    ∀ (fuel : Nat) (s : State V) (src : List (K × V)), Inv s →
    Inv (lru_update_with buflen fuel s src).state
  | 0, s, src, h => h
  | fuel + 1, s, src, h => by
    unfold lru_update_with
    by_cases hb : s.detectConflict && s.internalBusy
    · rw [if_pos hb]
      exact h
    · rw [if_neg hb]
      dsimp only
      have h1 : Inv ({ s with internalBusy := true }) :=
        Inv_congr _ _ rfl rfl rfl h
      obtain ⟨hf, _⟩ :=
        Inv_fill_buffer buflen src { s with internalBusy := true } 0 h1
      set t := lru_update_fill_buffer buflen src { s with internalBusy := true } 0
      have h2 : Inv ({ t.state with internalBusy := false }) :=
        Inv_congr _ _ rfl rfl rfl hf
      by_cases he : t.exhausted
      · rw [if_pos he]
        exact h2
      · rw [if_neg he]
        exact Inv_update_with buflen fuel _ t.remaining h2

/-- Every public operation preserves the structure invariant. -/
theorem Inv_step [DecidableEq V] (s : State V) (op : Op V) (h : Inv s) :
    Inv (step s op) := by
  have hbusy : Inv ({ s with internalBusy := true }) := h
  cases op with
  | assign k v =>
    show Inv (LRU_ass_sub s k (some v)).state
    unfold LRU_ass_sub
    by_cases hb : s.detectConflict && s.internalBusy
    · rw [if_pos hb]; exact h
    · rw [if_neg hb]
      dsimp only
      have h2 : Inv (lru_ass_sub_assign_impl { s with internalBusy := true } k v) := by
        unfold lru_ass_sub_assign_impl
        by_cases hk : k ∈ ({ s with internalBusy := true } : State V).dict
        · rw [if_pos hk]
          obtain ⟨hnd, hperm, hlen, hsz⟩ := hbusy
          have hkmem : k ∈ (({ s with internalBusy := true } : State V)).order.map Prod.fst :=
            hperm.mem_iff.mp hk
          obtain ⟨hd, hm, hp, hl, hs2, hst⟩ :=
            promote_spec { s with internalBusy := true } k v hperm hkmem
          exact ⟨hd ▸ hnd, hp, by rw [hl, hs2]; exact hlen, by rw [hs2]; exact hsz⟩
        · rw [if_neg hk]
          obtain ⟨hnd, hperm, hlen, hsz⟩ := hbusy
          obtain ⟨ha, hbp, hc, hd, _, _⟩ :=
            insert_new_spec { s with internalBusy := true } k v hnd hperm hk hlen
          exact ⟨ha, hbp, by rw [hd]; exact hc, by rw [hd]; exact hsz⟩
      exact Inv_purge _ false h2
  | del k =>
    show Inv (LRU_ass_sub s k none).state
    unfold LRU_ass_sub
    by_cases hb : s.detectConflict && s.internalBusy
    · rw [if_pos hb]; exact h
    · rw [if_neg hb]
      dsimp only
      have h2 : Inv (lru_ass_sub_del_impl { s with internalBusy := true } k).2 := by
        unfold lru_ass_sub_del_impl
        cases hn : lru_get_node ({ s with internalBusy := true }) k with
        | none => exact hbusy
        | some n =>
          obtain ⟨hk, hmem, hk1⟩ := lru_get_node_some _ k n hn
          subst hk1
          dsimp only
          exact Inv_erase_node { s with internalBusy := true } n.1 hbusy
      exact Inv_purge _ false h2
  | lookup k =>
    show Inv (LRU_subscript s k none).state
    unfold LRU_subscript
    by_cases hb : s.detectConflict && s.internalBusy
    · rw [if_pos hb]; exact h
    · rw [if_neg hb]
      dsimp only
      have h2 : Inv (lru_subscript_impl { s with internalBusy := true } k none).2 := by
        unfold lru_subscript_impl
        cases hn : lru_get_node ({ s with internalBusy := true }) k with
        | none => exact hbusy
        | some n =>
          obtain ⟨hk, hmem, hk1⟩ := lru_get_node_some _ k n hn
          subst hk1
          dsimp only
          obtain ⟨hnd, hperm, hlen, hsz⟩ := hbusy
          by_cases hh : ({ s with internalBusy := true } : State V).order.head? = some n
          · rw [if_pos hh]
            exact h
          · rw [if_neg hh]
            have hkmem : n.1 ∈ ({ s with internalBusy := true } : State V).order.map Prod.fst :=
              List.mem_map.mpr ⟨n, hmem, rfl⟩
            obtain ⟨hd, hm, hp, hl, hs2, hst⟩ :=
              promote_spec { s with internalBusy := true } n.1 n.2 hperm hkmem
            exact ⟨hd ▸ hnd, hp, by rw [hl, hs2]; exact hlen, by rw [hs2]; exact hsz⟩
      cases hres : (lru_subscript_impl { s with internalBusy := true } k none).1 <;>
        exact h2
  | getD k d =>
    show Inv (LRU_get s k d none).state
    unfold LRU_get
    by_cases hb : s.detectConflict && s.internalBusy
    · rw [if_pos hb]; exact h
    · rw [if_neg hb]
      dsimp only
      have h2 : Inv (lru_subscript_impl { s with internalBusy := true } k none).2 := by
        unfold lru_subscript_impl
        cases hn : lru_get_node ({ s with internalBusy := true }) k with
        | none => exact hbusy
        | some n =>
          obtain ⟨hk, hmem, hk1⟩ := lru_get_node_some _ k n hn
          subst hk1
          dsimp only
          obtain ⟨hnd, hperm, hlen, hsz⟩ := hbusy
          by_cases hh : ({ s with internalBusy := true } : State V).order.head? = some n
          · rw [if_pos hh]
            exact h
          · rw [if_neg hh]
            have hkmem : n.1 ∈ ({ s with internalBusy := true } : State V).order.map Prod.fst :=
              List.mem_map.mpr ⟨n, hmem, rfl⟩
            obtain ⟨hd, hm, hp, hl, hs2, hst⟩ :=
              promote_spec { s with internalBusy := true } n.1 n.2 hperm hkmem
            exact ⟨hd ▸ hnd, hp, by rw [hl, hs2]; exact hlen, by rw [hs2]; exact hsz⟩
      cases hres : (lru_subscript_impl { s with internalBusy := true } k none).1 <;>
        exact h2
  | setdefault k d =>
    show Inv (LRU_setdefault s k d).state
    unfold LRU_setdefault
    by_cases hb : s.detectConflict && s.internalBusy
    · rw [if_pos hb]; exact h
    · rw [if_neg hb]
      dsimp only
      cases hn : lru_get_node ({ s with internalBusy := true }) k with
      | some n =>
        obtain ⟨hk, hmem, hk1⟩ := lru_get_node_some _ k n hn
        subst hk1
        dsimp only
        obtain ⟨hnd, hperm, hlen, hsz⟩ := hbusy
        have hkmem : n.1 ∈ ({ s with internalBusy := true } : State V).order.map Prod.fst :=
          List.mem_map.mpr ⟨n, hmem, rfl⟩
        obtain ⟨hd, hm, hp, hl, hs2, hst⟩ :=
          promote_spec { s with internalBusy := true } n.1 n.2 hperm hkmem
        exact Inv_purge _ false
          ⟨hd ▸ hnd, hp, by rw [hl, hs2]; exact hlen, by rw [hs2]; exact hsz⟩
      | none =>
        dsimp only
        obtain ⟨hnd, hperm, hlen, hsz⟩ := hbusy
        have hk : k ∉ ({ s with internalBusy := true } : State V).dict :=
          lru_get_node_none _ k hperm hn
        obtain ⟨ha, hbp, hc, hd, _, _⟩ :=
          insert_new_spec { s with internalBusy := true } k d hnd hperm hk hlen
        exact Inv_purge _ false
          ⟨ha, hbp, by rw [hd]; exact hc, by rw [hd]; exact hsz⟩
  | pop k d =>
    show Inv (LRU_pop s k d).state
    unfold LRU_pop
    by_cases hb : s.detectConflict && s.internalBusy
    · rw [if_pos hb]; exact h
    · rw [if_neg hb]
      dsimp only
      cases hn : lru_get_node ({ s with internalBusy := true }) k with
      | some n =>
        obtain ⟨hk, hmem, hk1⟩ := lru_get_node_some _ k n hn
        subst hk1
        dsimp only
        exact Inv_erase_node { s with internalBusy := true } n.1 hbusy
      | none =>
        dsimp only
        cases d with
        | some dv => exact h
        | none => exact h
  | popitem lr =>
    show Inv (LRU_popitem s lr).state
    unfold LRU_popitem
    by_cases hb : s.detectConflict && s.internalBusy
    · rw [if_pos hb]; exact h
    · rw [if_neg hb]
      dsimp only
      cases hn : (if lr then ({ s with internalBusy := true } : State V).order.getLast?
          else ({ s with internalBusy := true } : State V).order.head?) with
      | none => exact h
      | some n =>
        dsimp only
        exact Inv_erase_node { s with internalBusy := true } n.1 hbusy
  | clear =>
    show Inv (LRU_clear s).state
    unfold LRU_clear
    by_cases hb : s.detectConflict && s.internalBusy
    · rw [if_pos hb]; exact h
    · rw [if_neg hb]
      obtain ⟨hnd, hperm, hlen, hsz⟩ := h
      exact ⟨by simp, by simp, by simp, by simpa using hsz⟩
  | setSize n =>
    show Inv (LRU_size_setter s (.int n)).state
    unfold LRU_size_setter
    dsimp only
    by_cases hb : s.detectConflict && s.internalBusy
    · rw [if_pos hb]; exact h
    · rw [if_neg hb]
      dsimp only
      exact Inv_purge _ false (Inv_set_size { s with internalBusy := true } n hbusy)
  | setCallback cb =>
    show Inv (LRU_callback_setter s cb).state
    unfold LRU_callback_setter
    by_cases hb : s.detectConflict && s.internalBusy
    · rw [if_pos hb]; exact h
    · rw [if_neg hb]
      exact h
  | update src =>
    show Inv (LRU_update s src).1.state
    unfold LRU_update
    dsimp only
    exact Inv_purge _ false
      (Inv_update_with (min s.size LRU_BATCH_MAX) (src.length + 1) s src h)
  | purge =>
    show Inv (LRU_purge s).state
    unfold LRU_purge
    dsimp only
    exact Inv_purge _ true h
  | contains k =>
    exact h

/-- Invariant preservation along any sequence of public operations. -/
theorem Inv_runOps [DecidableEq V] (ops : List (Op V)) :
    ∀ (s : State V), Inv s → Inv (runOps s ops) := by
  induction ops with
  | nil => exact fun s h => h
  | cons op rest ih =>
    intro s h
    exact ih (step s op) (Inv_step s op h)

/-- Framing: `lru_delete_last_impl` only touches the dict, the Order list,
the staging list and `should_purge`. -/
theorem delete_last_frame (s : State V) :
    (lru_delete_last_impl s).detectConflict = s.detectConflict ∧
    (lru_delete_last_impl s).internalBusy = s.internalBusy ∧
    (lru_delete_last_impl s).purgeBusy = s.purgeBusy ∧
    (lru_delete_last_impl s).purgeSuspended = s.purgeSuspended ∧
    (lru_delete_last_impl s).hits = s.hits ∧
    (lru_delete_last_impl s).misses = s.misses ∧
    (lru_delete_last_impl s).size = s.size ∧
    (lru_delete_last_impl s).hasCallback = s.hasCallback := by
  unfold lru_delete_last_impl
  cases s.order.getLast? with
  | none => exact ⟨rfl, rfl, rfl, rfl, rfl, rfl, rfl, rfl⟩
  | some n => by_cases hcb : s.hasCallback <;> simp [hcb]

/-- Framing: `lru_push_impl` only touches the dict, the Order list, the
staging list and `should_purge`. -/
theorem push_frame [DecidableEq V] (s : State V) (k : K) (v : V) :
    (lru_push_impl s k v).1.detectConflict = s.detectConflict ∧
    (lru_push_impl s k v).1.internalBusy = s.internalBusy ∧
    (lru_push_impl s k v).1.purgeBusy = s.purgeBusy ∧
    (lru_push_impl s k v).1.purgeSuspended = s.purgeSuspended ∧
    (lru_push_impl s k v).1.hasCallback = s.hasCallback := by
  unfold lru_push_impl lru_insert_new_node_impl
  cases lru_get_node s k with
  | none =>
    dsimp only
    by_cases hc : s.dict.length + 1 > s.size
    · have hf := delete_last_frame
        ({ s with dict := k :: s.dict, order := (k, v) :: s.order })
      rw [if_pos (by simpa using hc)]
      exact ⟨hf.1, hf.2.1, hf.2.2.1, hf.2.2.2.1, hf.2.2.2.2.2.2.2⟩
    · rw [if_neg (by simpa using hc)]
      exact ⟨rfl, rfl, rfl, rfl, rfl⟩
  | some n =>
    dsimp only
    by_cases hh : s.order.head? = some n
    · rw [if_pos hh]
      exact ⟨rfl, rfl, rfl, rfl, rfl⟩
    · rw [if_neg hh]
      exact ⟨rfl, rfl, rfl, rfl, rfl⟩

/-- A purge-drain attempted while the critical section is occupied balks
without touching the state or invoking the callback. -/
theorem purge_balk_busy (s : State V) (force : Bool)
    (h : s.internalBusy = true) :
    lru_purge_staging_impl s force = (s, []) := by
  unfold lru_purge_staging_impl lru_purge_staging_with
  by_cases h1 : !force && s.purgeSuspended
  · rw [if_pos h1]
  · rw [if_neg h1]
    rw [if_pos (by simp [h])]

/-- Under the invariant, a key in the dict probes to its node. -/
theorem lru_get_node_of_mem (s : State V) (k : K)
    (hperm : s.dict.Perm (s.order.map Prod.fst)) (hk : k ∈ s.dict) :
    ∃ v, lru_get_node s k = some (k, v) := by
  have hmem : k ∈ s.order.map Prod.fst := hperm.mem_iff.mp hk
  unfold lru_get_node
  rw [if_pos hk]
  obtain ⟨n, hn, hfst⟩ := List.mem_map.mp hmem
  have hsome : (s.order.find? (fun p => p.1 == k)).isSome :=
    List.find?_isSome.mpr ⟨n, hn, by simp [hfst]⟩
  obtain ⟨m, hm⟩ := Option.isSome_iff_exists.mp hsome
  have hm1 : m.1 = k := by simpa using List.find?_some hm
  refine ⟨m.2, ?_⟩
  rw [hm]
  cases m
  simp_all

/-- Callback-only tails keep the replay flag intact. -/
theorem cbStep_foldl_cbEvents (l : List (K × V)) (b : Bool) :
    List.foldl cbStep (b, false) (cbEvents l) = (b, false) := by
  induction l generalizing b with
  | nil => rfl
  | cons n t ih => simpa [cbEvents, cbStep] using ih b

/-- The per-pass critical-section pairs of `lru_update_with` keep the
replay flag intact. -/
theorem cbStep_foldl_update [DecidableEq V] (buflen : Nat) :
    ∀ (fuel : Nat) (s : State V) (src : List (K × V)) (b : Bool),
    List.foldl cbStep (b, false)
      (lru_update_with buflen fuel s src).events = (b, false)
  | 0, s, src, b => rfl
  | fuel + 1, s, src, b => by
    unfold lru_update_with
    by_cases hb : s.detectConflict && s.internalBusy
    · rw [if_pos hb]
      rfl
    · rw [if_neg hb]
      dsimp only
      by_cases he : (lru_update_fill_buffer buflen src
          { s with internalBusy := true } 0).exhausted
      · rw [if_pos he]
        rfl
      · rw [if_neg he]
        dsimp only
        rw [List.foldl_append]
        exact cbStep_foldl_update buflen fuel _ _ b

/-- On a positive size argument, `LRU_init` returns the fresh LRUDict. -/
theorem LRU_init_pos (V : Type) (n : Int) (cb : Bool) (hn : 0 < n) :
    LRU_init V n cb =
      .ok ⟨n.toNat, [], [], [], cb, 0, 0, false, false, false, false, true⟩ := by
  have hneg : ¬n ≤ 0 := by omega
  simp [LRU_init, lru_set_size_impl, hneg, lru_evict_loop]

/-- The freshly initialised LRUDict satisfies the invariant. -/
theorem Inv_init (V : Type) (n : Int) (cb : Bool) (s : State V)
    (h : LRU_init V n cb = .ok s) : Inv s := by
  by_cases hneg : n ≤ 0
  · exfalso
    simp [LRU_init, lru_set_size_impl, hneg] at h
  · rw [LRU_init_pos V n cb (by omega)] at h
    injection h with h2
    subst h2
    refine ⟨List.nodup_nil, by simp, by simp, ?_⟩
    simp
    omega

theorem purge_state_dict (s : State V) (force : Bool) :
    (lru_purge_staging_impl s force).1.dict = s.dict :=
  (purge_fields s force).1

theorem purge_state_order (s : State V) (force : Bool) :
    (lru_purge_staging_impl s force).1.order = s.order :=
  (purge_fields s force).2.1

theorem purge_state_size (s : State V) (force : Bool) :
    (lru_purge_staging_impl s force).1.size = s.size :=
  (purge_fields s force).2.2.1

theorem purge_state_hits (s : State V) (force : Bool) :
    (lru_purge_staging_impl s force).1.hits = s.hits :=
  (purge_fields s force).2.2.2.1

theorem purge_state_misses (s : State V) (force : Bool) :
    (lru_purge_staging_impl s force).1.misses = s.misses :=
  (purge_fields s force).2.2.2.2.1

theorem delete_last_hits (s : State V) :
    (lru_delete_last_impl s).hits = s.hits :=
  (delete_last_frame s).2.2.2.2.1

theorem delete_last_misses (s : State V) :
    (lru_delete_last_impl s).misses = s.misses :=
  (delete_last_frame s).2.2.2.2.2.1

theorem insert_new_hits (s : State V) (k : K) (v : V) :
    (lru_insert_new_node_impl s k v).hits = s.hits := by
  unfold lru_insert_new_node_impl
  dsimp only
  by_cases hc : s.dict.length + 1 > s.size
  · rw [if_pos (by simpa using hc)]
    exact delete_last_hits _
  · rw [if_neg (by simpa using hc)]
    rfl

theorem insert_new_misses (s : State V) (k : K) (v : V) :
    (lru_insert_new_node_impl s k v).misses = s.misses := by
  unfold lru_insert_new_node_impl
  dsimp only
  by_cases hc : s.dict.length + 1 > s.size
  · rw [if_pos (by simpa using hc)]
    exact delete_last_misses _
  · rw [if_neg (by simpa using hc)]
    rfl

/-! Claim theorems. -/

/-- C2: for every sequence of public operations on a freshly initialised
LRUDict, at every observation point between operations the number of
entries in the Index (the dict) equals the number of Nodes on the Order
list, and both are at most the capacity bound `size`. -/
theorem claim_C2 (V : Type) [DecidableEq V] (n : Int) (cb : Bool)
    (s0 : State V) (h0 : LRU_init V n cb = .ok s0) (ops : List (Op V)) :
    (runOps s0 ops).dict.length = (runOps s0 ops).order.length ∧
    (runOps s0 ops).dict.length ≤ (runOps s0 ops).size ∧
    (runOps s0 ops).order.length ≤ (runOps s0 ops).size := by
  obtain ⟨hnd, hperm, hlen, hsz⟩ := Inv_runOps ops s0 (Inv_init V n cb s0 h0)
  have hl : (runOps s0 ops).dict.length = (runOps s0 ops).order.length := by
    simpa using hperm.length_eq
  exact ⟨hl, by omega, hlen⟩

/-- Witness for C2 at a concrete run: init size 2, three inserts (one
eviction) and a lookup. -/
theorem claim_C2_witness :
    (runOps (⟨2, [], [], [], true, 0, 0, false, false, false, false, true⟩ :
        State Nat)
      [Op.assign 0 5, Op.assign 1 6, Op.assign 2 7, Op.lookup 1]).dict.length =
    (runOps (⟨2, [], [], [], true, 0, 0, false, false, false, false, true⟩ :
        State Nat)
      [Op.assign 0 5, Op.assign 1 6, Op.assign 2 7, Op.lookup 1]).order.length ∧
    (runOps (⟨2, [], [], [], true, 0, 0, false, false, false, false, true⟩ :
        State Nat)
      [Op.assign 0 5, Op.assign 1 6, Op.assign 2 7, Op.lookup 1]).dict.length ≤
    (runOps (⟨2, [], [], [], true, 0, 0, false, false, false, false, true⟩ :
        State Nat)
      [Op.assign 0 5, Op.assign 1 6, Op.assign 2 7, Op.lookup 1]).size ∧
    (runOps (⟨2, [], [], [], true, 0, 0, false, false, false, false, true⟩ :
        State Nat)
      [Op.assign 0 5, Op.assign 1 6, Op.assign 2 7, Op.lookup 1]).order.length ≤
    (runOps (⟨2, [], [], [], true, 0, 0, false, false, false, false, true⟩ :
        State Nat)
      [Op.assign 0 5, Op.assign 1 6, Op.assign 2 7, Op.lookup 1]).size :=
  claim_C2 Nat 2 true _ (LRU_init_pos Nat 2 true (by decide)) _

/-- C6: `clear()` leaves the container empty, resets both the hits and
misses counters to zero, and never invokes the eviction callback on the
displaced items: the staging list is untouched (nothing enqueued for
delivery) and the trace has no callback invocation. -/
theorem claim_C6 (V : Type) [DecidableEq V] (s : State V)
    (hb : (s.detectConflict && s.internalBusy) = false) :
    (LRU_clear s).result = .ok () ∧
    (LRU_clear s).state.dict.length = 0 ∧
    (LRU_clear s).state.order = [] ∧
    (LRU_clear s).state.hits = 0 ∧
    (LRU_clear s).state.misses = 0 ∧
    (LRU_clear s).state.staging = s.staging ∧
    (LRU_clear s).events.filter isCbEvent = [] := by
  unfold LRU_clear
  rw [if_neg (by simp [hb])]
  refine ⟨rfl, rfl, rfl, rfl, rfl, rfl, ?_⟩
  simp [isCbEvent]

/-- Witness for C6 on a populated LRUDict with a callback installed, live
counters, and a non-empty staging list. -/
theorem claim_C6_witness :
    (LRU_clear (⟨2, [0, 1], [(1, 6), (0, 5)], [(9, 9)], true, 3, 4, true,
        false, false, false, true⟩ : State Nat)).result = .ok () ∧
    (LRU_clear (⟨2, [0, 1], [(1, 6), (0, 5)], [(9, 9)], true, 3, 4, true,
        false, false, false, true⟩ : State Nat)).state.dict.length = 0 ∧
    (LRU_clear (⟨2, [0, 1], [(1, 6), (0, 5)], [(9, 9)], true, 3, 4, true,
        false, false, false, true⟩ : State Nat)).state.order = [] ∧
    (LRU_clear (⟨2, [0, 1], [(1, 6), (0, 5)], [(9, 9)], true, 3, 4, true,
        false, false, false, true⟩ : State Nat)).state.hits = 0 ∧
    (LRU_clear (⟨2, [0, 1], [(1, 6), (0, 5)], [(9, 9)], true, 3, 4, true,
        false, false, false, true⟩ : State Nat)).state.misses = 0 ∧
    (LRU_clear (⟨2, [0, 1], [(1, 6), (0, 5)], [(9, 9)], true, 3, 4, true,
        false, false, false, true⟩ : State Nat)).state.staging =
      (⟨2, [0, 1], [(1, 6), (0, 5)], [(9, 9)], true, 3, 4, true,
        false, false, false, true⟩ : State Nat).staging ∧
    (LRU_clear (⟨2, [0, 1], [(1, 6), (0, 5)], [(9, 9)], true, 3, 4, true,
        false, false, false, true⟩ : State Nat)).events.filter isCbEvent = [] :=
  claim_C6 Nat _ (by decide)

theorem fill_frame [DecidableEq V] (buflen : Nat) :
    ∀ (src : List (K × V)) (s : State V) (i : Nat),
    (lru_update_fill_buffer buflen src s i).state.detectConflict =
      s.detectConflict ∧
    (lru_update_fill_buffer buflen src s i).state.internalBusy =
      s.internalBusy
  | [], s, i => by
    unfold lru_update_fill_buffer
    split <;> exact ⟨rfl, rfl⟩
  | n :: rest, s, i => by
    unfold lru_update_fill_buffer
    by_cases hc : i < buflen
    · rw [if_pos hc]
      have hr := fill_frame buflen rest (lru_push_impl s n.1 n.2).1
        (if (lru_push_impl s n.1 n.2).2.isSome then i + 1 else i)
      have hp := push_frame s n.1 n.2
      exact ⟨hr.1.trans hp.1, hr.2.trans hp.2.1⟩
    · rw [if_neg hc]
      exact ⟨rfl, rfl⟩

theorem update_with_err_none [DecidableEq V] (buflen : Nat) :
    ∀ (fuel : Nat) (s : State V) (src : List (K × V)),
    s.detectConflict = false →
    (lru_update_with buflen fuel s src).err = none
  | 0, _, _, _ => rfl
  | fuel + 1, s, src, hdc => by
    unfold lru_update_with
    rw [if_neg (by simp [hdc])]
    dsimp only
    by_cases he : (lru_update_fill_buffer buflen src
        { s with internalBusy := true } 0).exhausted
    · rw [if_pos he]
    · rw [if_neg he]
      dsimp only
      refine update_with_err_none buflen fuel _ _ ?_
      have hf := (fill_frame buflen src { s with internalBusy := true } 0).1
      simpa [hf] using hdc

theorem subscript_impl_none_cases [DecidableEq V] (s : State V) (k : K) :
    (lru_subscript_impl s k none).1 = .missAbsent ∨
    ∃ n, (lru_subscript_impl s k none).1 = .hit n := by
  unfold lru_subscript_impl
  cases lru_get_node s k with
  | none => left; rfl
  | some n => right; exact ⟨n, rfl⟩

/-- C5: a write-style operation entered while another operation is in
progress (`busy` set) with `detect_conflict` enabled raises BusyError
before making any change to the container state, which is returned
entirely unchanged; and with `detect_conflict` disabled, no operation ever
raises BusyError. -/
theorem claim_C5 (V : Type) [DecidableEq V] (s : State V) (op : Op V) :
    (writeStyle op = true → s.internalBusy = true → s.detectConflict = true →
      (stepFull s op).2.1 = some .busy ∧ (stepFull s op).1 = s) ∧
    (s.detectConflict = false → (stepFull s op).2.1 ≠ some .busy) := by
  constructor
  · intro hw hbusy hdc
    cases op with
    | assign k v =>
      unfold stepFull LRU_ass_sub
      dsimp only
      rw [if_pos (by simp [hbusy, hdc])]
      exact ⟨rfl, rfl⟩
    | del k =>
      unfold stepFull LRU_ass_sub
      dsimp only
      rw [if_pos (by simp [hbusy, hdc])]
      exact ⟨rfl, rfl⟩
    | setdefault k d =>
      unfold stepFull LRU_setdefault
      dsimp only
      rw [if_pos (by simp [hbusy, hdc])]
      exact ⟨rfl, rfl⟩
    | pop k d =>
      unfold stepFull LRU_pop
      dsimp only
      rw [if_pos (by simp [hbusy, hdc])]
      exact ⟨rfl, rfl⟩
    | popitem lr =>
      unfold stepFull LRU_popitem
      dsimp only
      rw [if_pos (by simp [hbusy, hdc])]
      exact ⟨rfl, rfl⟩
    | clear =>
      unfold stepFull LRU_clear
      dsimp only
      rw [if_pos (by simp [hbusy, hdc])]
      exact ⟨rfl, rfl⟩
    | setSize n =>
      unfold stepFull LRU_size_setter
      dsimp only
      rw [if_pos (by simp [hbusy, hdc])]
      exact ⟨rfl, rfl⟩
    | setCallback cb =>
      unfold stepFull LRU_callback_setter
      dsimp only
      rw [if_pos (by simp [hbusy, hdc])]
      exact ⟨rfl, rfl⟩
    | update src =>
      unfold stepFull LRU_update
      dsimp only
      have hu : lru_update_with (min s.size LRU_BATCH_MAX)
          (src.length + 1) s src =
          ⟨s, [], [], some .busy, []⟩ := by
        unfold lru_update_with
        rw [if_pos (by simp [hbusy, hdc])]
      rw [hu]
      dsimp only
      rw [purge_balk_busy s false hbusy]
      exact ⟨rfl, rfl⟩
    | lookup k => simp [writeStyle] at hw
    | getD k d => simp [writeStyle] at hw
    | purge => simp [writeStyle] at hw
    | contains k => simp [writeStyle] at hw
  · intro hdc
    cases op with
    | assign k v =>
      unfold stepFull LRU_ass_sub
      dsimp only
      rw [if_neg (by simp [hdc])]
      simp [errOf]
    | del k =>
      unfold stepFull LRU_ass_sub
      dsimp only
      rw [if_neg (by simp [hdc])]
      cases hn : lru_get_node ({ s with internalBusy := true }) k with
      | none => simp [lru_ass_sub_del_impl, hn, errOf]
      | some n => simp [lru_ass_sub_del_impl, hn, errOf]
    | lookup k =>
      unfold stepFull LRU_subscript
      dsimp only
      rw [if_neg (by simp [hdc])]
      rcases subscript_impl_none_cases ({ s with internalBusy := true }) k with
        hres | ⟨m, hres⟩ <;> rw [hres] <;> simp [errOf]
    | getD k d =>
      unfold stepFull LRU_get
      dsimp only
      rw [if_neg (by simp [hdc])]
      rcases subscript_impl_none_cases ({ s with internalBusy := true }) k with
        hres | ⟨m, hres⟩ <;> rw [hres] <;> simp [errOf]
    | setdefault k d =>
      unfold stepFull LRU_setdefault
      dsimp only
      rw [if_neg (by simp [hdc])]
      cases hn : lru_get_node ({ s with internalBusy := true }) k with
      | none => simp [errOf]
      | some n => simp [errOf]
    | pop k d =>
      unfold stepFull LRU_pop
      dsimp only
      rw [if_neg (by simp [hdc])]
      cases hn : lru_get_node ({ s with internalBusy := true }) k with
      | none => cases d <;> simp [errOf]
      | some n => simp [errOf]
    | popitem lr =>
      unfold stepFull LRU_popitem
      dsimp only
      rw [if_neg (by simp [hdc])]
      cases hn : (if lr then
          ({ s with internalBusy := true } : State V).order.getLast?
          else ({ s with internalBusy := true } : State V).order.head?) with
      | none => simp [errOf]
      | some n => simp [errOf]
    | clear =>
      unfold stepFull LRU_clear
      dsimp only
      rw [if_neg (by simp [hdc])]
      simp [errOf]
    | setSize n =>
      unfold stepFull LRU_size_setter
      dsimp only
      rw [if_neg (by simp [hdc])]
      unfold lru_set_size_impl
      by_cases hneg : n ≤ 0
      · rw [if_pos hneg]
        simp [errOf]
      · rw [if_neg hneg]
        simp [errOf]
    | setCallback cb =>
      unfold stepFull LRU_callback_setter
      dsimp only
      rw [if_neg (by simp [hdc])]
      simp [errOf]
    | update src =>
      unfold stepFull LRU_update
      dsimp only
      rw [update_with_err_none (min s.size LRU_BATCH_MAX)
        (src.length + 1) s src hdc]
      simp [errOf]
    | purge =>
      unfold stepFull LRU_purge
      dsimp only
      simp [errOf]
    | contains k =>
      unfold stepFull LRU_contains
      dsimp only
      simp [errOf]

/-- Witness for C5: a busy LRUDict with conflict detection on refuses an
assignment unchanged, and with detection off an assignment on a busy
LRUDict does not raise BusyError. -/
theorem claim_C5_witness :
    ((stepFull (⟨1, [0], [(0, 5)], [], false, 0, 0, false, true, false,
        false, true⟩ : State Nat) (Op.assign 1 6)).2.1 = some .busy ∧
      (stepFull (⟨1, [0], [(0, 5)], [], false, 0, 0, false, true, false,
        false, true⟩ : State Nat) (Op.assign 1 6)).1 =
        (⟨1, [0], [(0, 5)], [], false, 0, 0, false, true, false,
          false, true⟩ : State Nat)) ∧
    ((stepFull (⟨1, [0], [(0, 5)], [], false, 0, 0, false, true, false,
        false, false⟩ : State Nat) (Op.assign 1 6)).2.1 ≠ some .busy) :=
  ⟨(claim_C5 Nat _ (Op.assign 1 6)).1 (by decide) (by decide) (by decide),
    (claim_C5 Nat _ (Op.assign 1 6)).2 (by decide)⟩

/-- C7: `setdefault(k, d)` has exactly one of two outcomes.  If `k` is
present, the stored value is returned, the node is promoted to the MRU
head, and `hits` is incremented by one (`misses` untouched).  If `k` is
absent, `(k, d)` is inserted at the MRU head, `d` is returned, and neither
counter changes. -/
theorem claim_C7 (V : Type) [DecidableEq V] (s : State V) (k : K) (d : V)
    (hinv : Inv s) (hb : (s.detectConflict && s.internalBusy) = false) :
    (k ∈ s.dict → ∃ v, lru_get_node s k = some (k, v) ∧
      (LRU_setdefault s k d).result = .ok v ∧
      (LRU_setdefault s k d).state.hits = wrapIncr s.hits ∧
      (LRU_setdefault s k d).state.misses = s.misses ∧
      (LRU_setdefault s k d).state.order.head? = some (k, v)) ∧
    (k ∉ s.dict →
      (LRU_setdefault s k d).result = .ok d ∧
      (LRU_setdefault s k d).state.hits = s.hits ∧
      (LRU_setdefault s k d).state.misses = s.misses ∧
      (LRU_setdefault s k d).state.order.head? = some (k, d)) := by
  obtain ⟨hnd, hperm, hlen, hsz⟩ := hinv
  constructor
  · intro hk
    obtain ⟨v, hn⟩ := lru_get_node_of_mem s k hperm hk
    refine ⟨v, hn, ?_⟩
    unfold LRU_setdefault
    rw [if_neg (by simp [hb])]
    dsimp only
    rw [show lru_get_node ({ s with internalBusy := true }) k = some (k, v)
      from hn]
    dsimp only
    refine ⟨rfl, ?_, ?_, ?_⟩
    · rw [purge_state_hits]
      rfl
    · rw [purge_state_misses]
      rfl
    · rw [purge_state_order]
      rfl
  · intro hk
    have hn : lru_get_node s k = none := by
      unfold lru_get_node
      rw [if_neg hk]
    unfold LRU_setdefault
    rw [if_neg (by simp [hb])]
    dsimp only
    rw [show lru_get_node ({ s with internalBusy := true }) k = none from hn]
    dsimp only
    refine ⟨rfl, ?_, ?_, ?_⟩
    · rw [purge_state_hits]
      exact insert_new_hits _ k d
    · rw [purge_state_misses]
      exact insert_new_misses _ k d
    · rw [purge_state_order]
      obtain ⟨_, _, _, _, _, horder⟩ :=
        insert_new_spec ({ s with internalBusy := true }) k d hnd hperm hk hlen
      rw [show (lru_insert_new_node_impl { s with internalBusy := true } k d
        : State V).order =
        (if ({ s with internalBusy := true } : State V).order.length + 1 >
            ({ s with internalBusy := true } : State V).size then
          ((k, d) :: ({ s with internalBusy := true } : State V).order).dropLast
        else (k, d) :: ({ s with internalBusy := true } : State V).order)
        from horder]
      by_cases hc : s.order.length + 1 > s.size
      · rw [if_pos (by simpa using hc)]
        have hne : s.order ≠ [] := by
          intro hmt
          rw [hmt] at hc
          simp at hc
          omega
        rw [List.dropLast_cons_of_ne_nil hne]
        rfl
      · rw [if_neg (by simpa using hc)]
        rfl

/-- Witness for C7 at a concrete LRUDict: key 1 present (value 6), key 9
absent. -/
theorem claim_C7_witness :
    (∃ v, lru_get_node (⟨2, [0, 1], [(1, 6), (0, 5)], [], true, 0, 0, false,
        false, false, false, true⟩ : State Nat) 1 = some (1, v) ∧
      (LRU_setdefault (⟨2, [0, 1], [(1, 6), (0, 5)], [], true, 0, 0, false,
        false, false, false, true⟩ : State Nat) 1 7).result = .ok v ∧
      (LRU_setdefault (⟨2, [0, 1], [(1, 6), (0, 5)], [], true, 0, 0, false,
        false, false, false, true⟩ : State Nat) 1 7).state.hits =
        wrapIncr 0 ∧
      (LRU_setdefault (⟨2, [0, 1], [(1, 6), (0, 5)], [], true, 0, 0, false,
        false, false, false, true⟩ : State Nat) 1 7).state.misses = 0 ∧
      (LRU_setdefault (⟨2, [0, 1], [(1, 6), (0, 5)], [], true, 0, 0, false,
        false, false, false, true⟩ : State Nat) 1 7).state.order.head? =
        some (1, v)) ∧
    ((LRU_setdefault (⟨2, [0, 1], [(1, 6), (0, 5)], [], true, 0, 0, false,
        false, false, false, true⟩ : State Nat) 9 7).result = .ok 7 ∧
      (LRU_setdefault (⟨2, [0, 1], [(1, 6), (0, 5)], [], true, 0, 0, false,
        false, false, false, true⟩ : State Nat) 9 7).state.hits = 0 ∧
      (LRU_setdefault (⟨2, [0, 1], [(1, 6), (0, 5)], [], true, 0, 0, false,
        false, false, false, true⟩ : State Nat) 9 7).state.misses = 0 ∧
      (LRU_setdefault (⟨2, [0, 1], [(1, 6), (0, 5)], [], true, 0, 0, false,
        false, false, false, true⟩ : State Nat) 9 7).state.order.head? =
        some (9, 7)) :=
  ⟨(claim_C7 Nat _ 1 7 ⟨by decide, by decide, by decide, by decide⟩
      (by decide)).1 (by decide),
    (claim_C7 Nat _ 9 7 ⟨by decide, by decide, by decide, by decide⟩
      (by decide)).2 (by decide)⟩

/-- C8: `resize(new_size)` with an integer `new_size >= 1` succeeds, sets
`size` to `new_size`, and leaves exactly the `new_size` most-recently-used
entries in their pre-resize MRU-to-LRU order (the take of the Order list);
a non-positive integer is refused with ValueError and a non-integer with
TypeError, and in both refusal cases the contents are unchanged. -/
theorem claim_C8 (V : Type) [DecidableEq V] (s : State V) (n : Int)
    (hinv : Inv s) (hb : (s.detectConflict && s.internalBusy) = false) :
    (1 ≤ n →
      (LRU_size_setter s (.int n)).result = .ok () ∧
      (LRU_size_setter s (.int n)).state.size = n.toNat ∧
      (LRU_size_setter s (.int n)).state.order = s.order.take n.toNat) ∧
    (n ≤ 0 →
      (LRU_size_setter s (.int n)).result = .error .valueError ∧
      (LRU_size_setter s (.int n)).state.dict = s.dict ∧
      (LRU_size_setter s (.int n)).state.order = s.order ∧
      (LRU_size_setter s (.int n)).state.size = s.size) ∧
    ((LRU_size_setter s .notInt).result = .error .typeError ∧
      (LRU_size_setter s .notInt).state = s) := by
  obtain ⟨hnd, hperm, hlen, hsz⟩ := hinv
  have hlendict : s.dict.length = s.order.length := by
    simpa using hperm.length_eq
  refine ⟨?_, ?_, ⟨rfl, rfl⟩⟩
  · intro hpos
    unfold LRU_size_setter
    dsimp only
    rw [if_neg (by simp [hb])]
    dsimp only
    unfold lru_set_size_impl
    rw [if_neg (by omega)]
    dsimp only
    obtain ⟨ha, hbp, hc, hd⟩ := evict_loop_spec
      (({ s with internalBusy := true } : State V).dict.length)
      ({ { s with internalBusy := true } with size := n.toNat })
      hnd hperm (by simpa using hlendict.ge)
    refine ⟨rfl, ?_, ?_⟩
    · rw [purge_state_size]
      exact hd
    · rw [purge_state_order]
      exact hc
  · intro hneg
    unfold LRU_size_setter
    dsimp only
    rw [if_neg (by simp [hb])]
    dsimp only
    unfold lru_set_size_impl
    rw [if_pos hneg]
    dsimp only
    exact ⟨rfl, by rw [purge_state_dict], by rw [purge_state_order],
      by rw [purge_state_size]⟩

/-- Witness for C8: shrink a three-entry LRUDict of size 3 to 2, refuse 0,
refuse a non-integer. -/
theorem claim_C8_witness :
    (1 ≤ (2 : Int) →
      (LRU_size_setter (⟨3, [0, 1, 2], [(2, 7), (1, 6), (0, 5)], [], false,
        0, 0, false, false, false, false, true⟩ : State Nat)
        (.int 2)).result = .ok () ∧
      (LRU_size_setter (⟨3, [0, 1, 2], [(2, 7), (1, 6), (0, 5)], [], false,
        0, 0, false, false, false, false, true⟩ : State Nat)
        (.int 2)).state.size = (2 : Int).toNat ∧
      (LRU_size_setter (⟨3, [0, 1, 2], [(2, 7), (1, 6), (0, 5)], [], false,
        0, 0, false, false, false, false, true⟩ : State Nat)
        (.int 2)).state.order =
        (⟨3, [0, 1, 2], [(2, 7), (1, 6), (0, 5)], [], false,
        0, 0, false, false, false, false, true⟩ : State Nat).order.take
          (2 : Int).toNat) ∧
    ((2 : Int) ≤ 0 →
      (LRU_size_setter (⟨3, [0, 1, 2], [(2, 7), (1, 6), (0, 5)], [], false,
        0, 0, false, false, false, false, true⟩ : State Nat)
        (.int 2)).result = .error .valueError ∧
      (LRU_size_setter (⟨3, [0, 1, 2], [(2, 7), (1, 6), (0, 5)], [], false,
        0, 0, false, false, false, false, true⟩ : State Nat)
        (.int 2)).state.dict =
        (⟨3, [0, 1, 2], [(2, 7), (1, 6), (0, 5)], [], false,
        0, 0, false, false, false, false, true⟩ : State Nat).dict ∧
      (LRU_size_setter (⟨3, [0, 1, 2], [(2, 7), (1, 6), (0, 5)], [], false,
        0, 0, false, false, false, false, true⟩ : State Nat)
        (.int 2)).state.order =
        (⟨3, [0, 1, 2], [(2, 7), (1, 6), (0, 5)], [], false,
        0, 0, false, false, false, false, true⟩ : State Nat).order ∧
      (LRU_size_setter (⟨3, [0, 1, 2], [(2, 7), (1, 6), (0, 5)], [], false,
        0, 0, false, false, false, false, true⟩ : State Nat)
        (.int 2)).state.size =
        (⟨3, [0, 1, 2], [(2, 7), (1, 6), (0, 5)], [], false,
        0, 0, false, false, false, false, true⟩ : State Nat).size) ∧
    ((LRU_size_setter (⟨3, [0, 1, 2], [(2, 7), (1, 6), (0, 5)], [], false,
        0, 0, false, false, false, false, true⟩ : State Nat)
        .notInt).result = .error .typeError ∧
      (LRU_size_setter (⟨3, [0, 1, 2], [(2, 7), (1, 6), (0, 5)], [], false,
        0, 0, false, false, false, false, true⟩ : State Nat)
        .notInt).state =
        (⟨3, [0, 1, 2], [(2, 7), (1, 6), (0, 5)], [], false,
        0, 0, false, false, false, false, true⟩ : State Nat)) :=
  claim_C8 Nat _ 2 ⟨by decide, by decide, by decide, by decide⟩ (by decide)

/-- C1: on a full LRUDict (length = size) with a callback installed and an
empty purge queue, assigning to an absent key inserts the new entry at the
MRU head, evicts exactly the LRU tail entry, and the callback is invoked
exactly once, with that evicted pair, after the critical section is left;
and concretely, `L = LRUDict(3); L[0]; L[1]; L[2]; L[3]` leaves the keys
`[3, 2, 1]` in MRU-to-LRU order with the callback called exactly once with
the pair for key 0. -/
theorem claim_C1 :
    (∀ (V : Type) [inst : DecidableEq V] (s : State V) (k : K) (v : V)
      (last : K × V), Inv s → s.dict.length = s.size → k ∉ s.dict →
      s.hasCallback = true → s.staging = [] → s.internalBusy = false →
      s.purgeBusy = false → s.purgeSuspended = false →
      s.order.getLast? = some last →
      (LRU_ass_sub s k (some v)).result = .ok () ∧
      (LRU_ass_sub s k (some v)).state.order = (k, v) :: s.order.dropLast ∧
      (LRU_ass_sub s k (some v)).events =
        [.enterCrit, .leaveCrit, .callbackCall last.1 last.2] ∧
      (LRU_ass_sub s k (some v)).state.staging = []) ∧
    ((LRU_ass_sub (LRU_ass_sub (LRU_ass_sub (LRU_ass_sub
        (⟨3, [], [], [], true, 0, 0, false, false, false, false, true⟩ :
          State Nat) 0 (some 10)).state 1 (some 11)).state 2
          (some 12)).state 3 (some 13)).state.order.map Prod.fst =
        [3, 2, 1] ∧
      ((LRU_ass_sub (⟨3, [], [], [], true, 0, 0, false, false, false, false,
          true⟩ : State Nat) 0 (some 10)).events ++
        (LRU_ass_sub (LRU_ass_sub (⟨3, [], [], [], true, 0, 0, false, false,
          false, false, true⟩ : State Nat) 0 (some 10)).state 1
          (some 11)).events ++
        (LRU_ass_sub (LRU_ass_sub (LRU_ass_sub (⟨3, [], [], [], true, 0, 0,
          false, false, false, false, true⟩ : State Nat) 0
          (some 10)).state 1 (some 11)).state 2 (some 12)).events ++
        (LRU_ass_sub (LRU_ass_sub (LRU_ass_sub (LRU_ass_sub (⟨3, [], [], [],
          true, 0, 0, false, false, false, false, true⟩ : State Nat) 0
          (some 10)).state 1 (some 11)).state 2 (some 12)).state 3
          (some 13)).events).filter isCbEvent =
        [Event.callbackCall 0 10]) := by
  constructor
  · intro V inst s k v last hinv hfull hk hcb hstg hbusy hpb hps hlast
    obtain ⟨hnd, hperm, hlen, hsz⟩ := hinv
    have horder_ne : s.order ≠ [] := by
      intro hmt
      rw [hmt] at hlast
      simp at hlast
    have hlast2 : ((k, v) :: s.order).getLast? = some last := by
      cases ho : s.order with
      | nil => exact absurd ho horder_ne
      | cons c t =>
        rw [List.getLast?_cons_cons]
        rw [ho] at hlast
        exact hlast
    unfold LRU_ass_sub
    rw [if_neg (by simp [hbusy])]
    dsimp only
    unfold lru_ass_sub_assign_impl
    rw [if_neg (show k ∉ ({ s with internalBusy := true } : State V).dict
      from hk)]
    unfold lru_insert_new_node_impl lru_add_node_at_head_impl
    dsimp only
    rw [if_pos (show (k :: s.dict).length > s.size by simp only [List.length_cons]; omega)]
    unfold lru_delete_last_impl
    rw [show ((k, v) ::
        ({ s with internalBusy := true } : State V).order).getLast? =
      some last from hlast2]
    dsimp only
    rw [if_pos (show s.hasCallback = true from hcb)]
    dsimp only
    rw [purge_delivers
      ({ size := s.size, dict := (k :: s.dict).erase last.1,
          order := ((k, v) :: s.order).dropLast,
          staging := s.staging ++ [last], hasCallback := s.hasCallback,
          hits := s.hits, misses := s.misses, shouldPurge := true,
          internalBusy := false, purgeBusy := s.purgeBusy,
          purgeSuspended := s.purgeSuspended,
          detectConflict := s.detectConflict })
      hps rfl rfl hpb hcb]
    dsimp only
    refine ⟨rfl, ?_, ?_, rfl⟩
    · exact List.dropLast_cons_of_ne_nil horder_ne
    · rw [show s.staging ++ [last] = [last] by rw [hstg]; rfl]
      rfl
  · exact ⟨by decide, by decide⟩

/-- Witness for C1 on a concrete full LRUDict of size 2. -/
theorem claim_C1_witness :
    (LRU_ass_sub (⟨2, [1, 0], [(1, 6), (0, 5)], [], true, 0, 0, false,
      false, false, false, true⟩ : State Nat) 2 (some 7)).result =
        .ok () ∧
    (LRU_ass_sub (⟨2, [1, 0], [(1, 6), (0, 5)], [], true, 0, 0, false,
      false, false, false, true⟩ : State Nat) 2 (some 7)).state.order =
        (2, 7) :: (⟨2, [1, 0], [(1, 6), (0, 5)], [], true, 0, 0, false,
          false, false, false, true⟩ : State Nat).order.dropLast ∧
    (LRU_ass_sub (⟨2, [1, 0], [(1, 6), (0, 5)], [], true, 0, 0, false,
      false, false, false, true⟩ : State Nat) 2 (some 7)).events =
        [.enterCrit, .leaveCrit, .callbackCall (0, 5).1 (0, 5).2] ∧
    (LRU_ass_sub (⟨2, [1, 0], [(1, 6), (0, 5)], [], true, 0, 0, false,
      false, false, false, true⟩ : State Nat) 2 (some 7)).state.staging =
        [] :=
  claim_C1.1 Nat _ 2 7 (0, 5) ⟨by decide, by decide, by decide, by decide⟩
    (by decide) (by decide) (by decide) (by decide) (by decide) (by decide)
    (by decide) (by decide)

theorem cbOutside_el_cbs (l : List (K × V)) :
    cbOutsideCrit ([Event.enterCrit, Event.leaveCrit] ++ cbEvents l) =
      true := by
  unfold cbOutsideCrit
  rw [List.foldl_append, show List.foldl cbStep (true, false)
    [Event.enterCrit (V := V), Event.leaveCrit] = (true, false) from rfl]
  rw [cbStep_foldl_cbEvents]

theorem cbOutside_cbs (l : List (K × V)) :
    cbOutsideCrit (cbEvents l) = true := by
  unfold cbOutsideCrit
  rw [cbStep_foldl_cbEvents]

/-- C4: the eviction callback never runs inside the critical section: for
every public operation the trace shows every callback invocation strictly
after the critical section was left; and concretely, `L = LRUDict(1);
L[0] = 0; L[1] = 1` produces no callback during the first assignment and
exactly one callback invocation `(0, 0)` in the second assignment's trace,
positioned after the critical section exit. -/
theorem claim_C4 :
    (∀ (V : Type) [inst : DecidableEq V] (s : State V) (op : Op V),
      cbOutsideCrit (stepFull s op).2.2 = true) ∧
    ((LRU_ass_sub (⟨1, [], [], [], true, 0, 0, false, false, false, false,
        true⟩ : State Nat) 0 (some 0)).events =
      [Event.enterCrit, Event.leaveCrit] ∧
    (LRU_ass_sub (LRU_ass_sub (⟨1, [], [], [], true, 0, 0, false, false,
        false, false, true⟩ : State Nat) 0 (some 0)).state 1
        (some 1)).events =
      [Event.enterCrit, Event.leaveCrit, Event.callbackCall 0 0]) := by
  constructor
  · intro V inst s op
    cases op with
    | assign k v =>
      show cbOutsideCrit (LRU_ass_sub s k (some v)).events = true
      unfold LRU_ass_sub
      by_cases hb : s.detectConflict && s.internalBusy
      · rw [if_pos hb]
        rfl
      · rw [if_neg hb]
        exact cbOutside_el_cbs _
    | del k =>
      show cbOutsideCrit (LRU_ass_sub s k none).events = true
      unfold LRU_ass_sub
      by_cases hb : s.detectConflict && s.internalBusy
      · rw [if_pos hb]
        rfl
      · rw [if_neg hb]
        exact cbOutside_el_cbs _
    | lookup k =>
      show cbOutsideCrit (LRU_subscript s k none).events = true
      unfold LRU_subscript
      by_cases hb : s.detectConflict && s.internalBusy
      · rw [if_pos hb]
        rfl
      · rw [if_neg hb]
        dsimp only
        cases (lru_subscript_impl ({ s with internalBusy := true }) k none).1
          <;> rfl
    | getD k d =>
      show cbOutsideCrit (LRU_get s k d none).events = true
      unfold LRU_get
      by_cases hb : s.detectConflict && s.internalBusy
      · rw [if_pos hb]
        rfl
      · rw [if_neg hb]
        dsimp only
        cases (lru_subscript_impl ({ s with internalBusy := true }) k none).1
          <;> rfl
    | setdefault k d =>
      show cbOutsideCrit (LRU_setdefault s k d).events = true
      unfold LRU_setdefault
      by_cases hb : s.detectConflict && s.internalBusy
      · rw [if_pos hb]
        rfl
      · rw [if_neg hb]
        dsimp only
        cases lru_get_node ({ s with internalBusy := true }) k <;>
          exact cbOutside_el_cbs _
    | pop k d =>
      show cbOutsideCrit (LRU_pop s k d).events = true
      unfold LRU_pop
      by_cases hb : s.detectConflict && s.internalBusy
      · rw [if_pos hb]
        rfl
      · rw [if_neg hb]
        dsimp only
        cases lru_get_node ({ s with internalBusy := true }) k with
        | none => cases d <;> rfl
        | some n => rfl
    | popitem lr =>
      show cbOutsideCrit (LRU_popitem s lr).events = true
      unfold LRU_popitem
      by_cases hb : s.detectConflict && s.internalBusy
      · rw [if_pos hb]
        rfl
      · rw [if_neg hb]
        dsimp only
        cases (if lr then
            ({ s with internalBusy := true } : State V).order.getLast?
            else ({ s with internalBusy := true } : State V).order.head?) <;>
          rfl
    | clear =>
      show cbOutsideCrit (LRU_clear s).events = true
      unfold LRU_clear
      by_cases hb : s.detectConflict && s.internalBusy
      · rw [if_pos hb]
        rfl
      · rw [if_neg hb]
        rfl
    | setSize n =>
      show cbOutsideCrit (LRU_size_setter s (.int n)).events = true
      unfold LRU_size_setter
      dsimp only
      by_cases hb : s.detectConflict && s.internalBusy
      · rw [if_pos hb]
        rfl
      · rw [if_neg hb]
        exact cbOutside_el_cbs _
    | setCallback cb =>
      show cbOutsideCrit (LRU_callback_setter s cb).events = true
      unfold LRU_callback_setter
      by_cases hb : s.detectConflict && s.internalBusy
      · rw [if_pos hb]
        rfl
      · rw [if_neg hb]
        rfl
    | update src =>
      show cbOutsideCrit (LRU_update s src).1.events = true
      unfold LRU_update
      dsimp only
      unfold cbOutsideCrit
      rw [List.foldl_append, cbStep_foldl_update, cbStep_foldl_cbEvents]
    | purge =>
      show cbOutsideCrit (LRU_purge s).events = true
      unfold LRU_purge
      exact cbOutside_cbs _
    | contains k =>
      rfl
  · exact ⟨by decide, by decide⟩

/-- Witness for C4 at a concrete busy-free state and an assignment. -/
theorem claim_C4_witness :
    cbOutsideCrit (stepFull (⟨1, [0], [(0, 5)], [], true, 0, 0, false,
      false, false, false, true⟩ : State Nat) (Op.assign 1 6)).2.2 =
      true :=
  claim_C4.1 Nat _ (Op.assign 1 6)

theorem fill_spec [DecidableEq V] (buflen : Nat) :
    ∀ (src : List (K × V)) (s : State V) (i : Nat),
    (lru_update_fill_buffer buflen src s i).pushed ++
      (lru_update_fill_buffer buflen src s i).remaining = src ∧
    (i ≤ buflen → (lru_update_fill_buffer buflen src s i).buffered ≤ buflen) ∧
    ((lru_update_fill_buffer buflen src s i).exhausted = true →
      (lru_update_fill_buffer buflen src s i).remaining = []) ∧
    (i < buflen → (lru_update_fill_buffer buflen src s i).exhausted = false →
      (lru_update_fill_buffer buflen src s i).pushed ≠ [])
  | [], s, i => by
    unfold lru_update_fill_buffer
    by_cases hc : i < buflen
    · rw [if_pos hc]
      exact ⟨rfl, fun h => h, fun _ => rfl, fun _ hx => by simp at hx⟩
    · rw [if_neg hc]
      exact ⟨rfl, fun h => h, fun hx => by simp at hx, fun hi _ => absurd hi hc⟩
  | n :: rest, s, i => by
    unfold lru_update_fill_buffer
    by_cases hc : i < buflen
    · rw [if_pos hc]
      obtain ⟨h1, h2, h3, _⟩ := fill_spec buflen rest (lru_push_impl s n.1 n.2).1
        (if (lru_push_impl s n.1 n.2).2.isSome then i + 1 else i)
      refine ⟨by simpa using h1, ?_, h3, fun _ _ => by simp⟩
      intro _
      refine h2 ?_
      by_cases hsome : (lru_push_impl s n.1 n.2).2.isSome
      · rw [if_pos hsome]
        omega
      · rw [if_neg hsome]
        omega
    · rw [if_neg hc]
      exact ⟨rfl, fun h => h, fun hx => by simp at hx, fun hi _ => absurd hi hc⟩

theorem update_with_spec [DecidableEq V] (buflen : Nat) (hb1 : 1 ≤ buflen) :
    ∀ (fuel : Nat) (s : State V) (src : List (K × V)),
    src.length < fuel → s.internalBusy = false →
    (lru_update_with buflen fuel s src).batches.flatten = src ∧
    (lru_update_with buflen fuel s src).err = none ∧
    (∀ c ∈ (lru_update_with buflen fuel s src).bufcounts, c ≤ buflen)
  | 0, s, src, hfuel, _ => absurd hfuel (by omega)
  | fuel + 1, s, src, hfuel, hbusy => by
    unfold lru_update_with
    rw [if_neg (by simp [hbusy])]
    dsimp only
    obtain ⟨h1, h2, h3, h4⟩ :=
      fill_spec buflen src ({ s with internalBusy := true }) 0
    by_cases he : (lru_update_fill_buffer buflen src
        { s with internalBusy := true } 0).exhausted
    · rw [if_pos he]
      refine ⟨?_, rfl, ?_⟩
      · have hrem := h3 he
        rw [hrem] at h1
        simpa [List.flatten] using h1
      · intro c hcmem
        simp at hcmem
        subst hcmem
        exact h2 (by omega)
    · rw [if_neg he]
      dsimp only
      have hpush_ne := h4 (by omega) (by simpa using he)
      have hlt : (lru_update_fill_buffer buflen src
          { s with internalBusy := true } 0).remaining.length < fuel := by
        have hlen := congrArg List.length h1
        simp only [List.length_append] at hlen
        have : 1 ≤ (lru_update_fill_buffer buflen src
            { s with internalBusy := true } 0).pushed.length := by
          cases hps : (lru_update_fill_buffer buflen src
              { s with internalBusy := true } 0).pushed with
          | nil => exact absurd hps hpush_ne
          | cons a t => simp
        omega
      obtain ⟨ha, hbp, hcq⟩ := update_with_spec buflen hb1 fuel
        ({ (lru_update_fill_buffer buflen src
            { s with internalBusy := true } 0).state with
            internalBusy := false })
        (lru_update_fill_buffer buflen src
          { s with internalBusy := true } 0).remaining hlt rfl
      refine ⟨?_, hbp, ?_⟩
      · simp only [List.flatten_cons]
        rw [ha, h1]
      · intro c hcmem
        simp only [List.mem_cons] at hcmem
        rcases hcmem with hcmem | hcmem
        · subst hcmem
          exact h2 (by omega)
        · exact hcq c hcmem

/-- C9 (amended): `update(source)` applies every pair of the source exactly
once, in source order, across one or more critical-section passes; each
pass buffers at most `min(size, LRU_BATCH_MAX)` replaced old values, which
are released after the pass leaves the critical section, and a single
purge-drain runs after the passes.  (A pass is not bounded by the number
of *pairs* it pushes: insertions of new keys do not fill the buffer.) -/
theorem claim_C9 (V : Type) [DecidableEq V] (s : State V)
    (src : List (K × V)) (hbusy : s.internalBusy = false)
    (hsz : 1 ≤ s.size) :
    ((LRU_update s src).2).flatten = src ∧
    (LRU_update s src).1.result = .ok () ∧
    (∀ c ∈ (lru_update_with (min s.size LRU_BATCH_MAX) (src.length + 1)
        s src).bufcounts, c ≤ min s.size LRU_BATCH_MAX) := by
  have hb1 : 1 ≤ min s.size LRU_BATCH_MAX := by
    have : (1 : Nat) ≤ LRU_BATCH_MAX := by norm_num [LRU_BATCH_MAX]
    omega
  obtain ⟨h1, h2, h3⟩ := update_with_spec (min s.size LRU_BATCH_MAX) hb1
    (src.length + 1) s src (by omega) hbusy
  refine ⟨h1, ?_, h3⟩
  unfold LRU_update
  dsimp only
  rw [h2]

/-- Witness for C9 (amended) at a concrete update. -/
theorem claim_C9_witness :
    ((LRU_update (⟨2, [], [], [], false, 0, 0, false, false, false, false,
        true⟩ : State Nat) [(0, 10), (1, 11), (2, 12)]).2).flatten =
      [(0, 10), (1, 11), (2, 12)] ∧
    (LRU_update (⟨2, [], [], [], false, 0, 0, false, false, false, false,
        true⟩ : State Nat) [(0, 10), (1, 11), (2, 12)]).1.result = .ok () ∧
    (∀ c ∈ (lru_update_with
        (min (⟨2, [], [], [], false, 0, 0, false, false, false, false,
          true⟩ : State Nat).size LRU_BATCH_MAX)
        ([(0, 10), (1, 11), (2, 12)].length + 1)
        (⟨2, [], [], [], false, 0, 0, false, false, false, false,
          true⟩ : State Nat) [(0, 10), (1, 11), (2, 12)]).bufcounts,
      c ≤ min (⟨2, [], [], [], false, 0, 0, false, false, false, false,
          true⟩ : State Nat).size LRU_BATCH_MAX) :=
  claim_C9 Nat _ [(0, 10), (1, 11), (2, 12)] (by decide) (by decide)

set_option maxRecDepth 8000 in
/-- Counterexample for C9 as stated: on an LRUDict of size 200, updating
with 129 fresh keys performs all 129 pushes in a single critical-section
pass, so the claimed bound of at most `B = 128` pairs per batch is false. -/
theorem claim_C9_counterexample :
    ¬(((LRU_update (⟨200, [], [], [], false, 0, 0, false, false, false,
        false, true⟩ : State Nat)
      ((List.range 129).map (fun i => (i, i)))).2).all
        (fun b => b.length ≤ LRU_BATCH_MAX) = true) := by
  decide

/-- C10 (amended): every probe that yields no node — a genuine absence or
an error raised by key hashing/equality inside the probe — increments
`misses` by exactly one.  Through `__getitem__` (`LRU_subscript`) the error
or KeyError propagates, and through the lrudict_pq.h generation of `get`
(`LRU_get_pq`) a probe error propagates; but the lrudict.c generation of
`get` (`LRU_get`) clears any probe error and returns the default, with
`misses` still incremented. -/
theorem claim_C10 (V : Type) [DecidableEq V] (s : State V) (k : K) (d : V)
    (hb : (s.detectConflict && s.internalBusy) = false) :
    (∀ e, (LRU_subscript s k (some e)).result = .error e ∧
      (LRU_subscript s k (some e)).state.misses = wrapIncr s.misses) ∧
    (lru_get_node s k = none →
      (LRU_subscript s k none).result = .error .keyError ∧
      (LRU_subscript s k none).state.misses = wrapIncr s.misses) ∧
    (∀ e, (LRU_get s k d (some e)).result = .ok d ∧
      (LRU_get s k d (some e)).state.misses = wrapIncr s.misses) ∧
    (lru_get_node s k = none →
      (LRU_get s k d none).result = .ok d ∧
      (LRU_get s k d none).state.misses = wrapIncr s.misses) ∧
    (∀ e, (LRU_get_pq s k d (some e)).result = .error e ∧
      (LRU_get_pq s k d (some e)).state.misses = wrapIncr s.misses) ∧
    (lru_get_node s k = none →
      (LRU_get_pq s k d none).result = .ok d ∧
      (LRU_get_pq s k d none).state.misses = wrapIncr s.misses) := by
  refine ⟨?_, ?_, ?_, ?_, ?_, ?_⟩
  · intro e
    unfold LRU_subscript
    rw [if_neg (by simp [hb])]
    exact ⟨rfl, rfl⟩
  · intro hn
    unfold LRU_subscript lru_subscript_impl
    rw [if_neg (by simp [hb])]
    dsimp only
    rw [show lru_get_node ({ s with internalBusy := true }) k = none from hn]
    exact ⟨rfl, rfl⟩
  · intro e
    unfold LRU_get
    rw [if_neg (by simp [hb])]
    exact ⟨rfl, rfl⟩
  · intro hn
    unfold LRU_get lru_subscript_impl
    rw [if_neg (by simp [hb])]
    dsimp only
    rw [show lru_get_node ({ s with internalBusy := true }) k = none from hn]
    exact ⟨rfl, rfl⟩
  · intro e
    unfold LRU_get_pq
    rw [if_neg (by simp [hb])]
    exact ⟨rfl, rfl⟩
  · intro hn
    unfold LRU_get_pq lru_subscript_impl
    rw [if_neg (by simp [hb])]
    dsimp only
    rw [show lru_get_node ({ s with internalBusy := true }) k = none from hn]
    exact ⟨rfl, rfl⟩

/-- Witness for C10 (amended) at a concrete state, key, and probe error. -/
theorem claim_C10_witness :
    ((LRU_subscript (⟨1, [], [], [], false, 0, 0, false, false, false,
        false, true⟩ : State Nat) 5 (some .typeError)).result =
      .error .typeError ∧
    (LRU_subscript (⟨1, [], [], [], false, 0, 0, false, false, false,
        false, true⟩ : State Nat) 5 (some .typeError)).state.misses =
      wrapIncr 0) ∧
    ((LRU_get (⟨1, [], [], [], false, 0, 0, false, false, false,
        false, true⟩ : State Nat) 5 77 (some .typeError)).result =
      .ok 77 ∧
    (LRU_get (⟨1, [], [], [], false, 0, 0, false, false, false,
        false, true⟩ : State Nat) 5 77 (some .typeError)).state.misses =
      wrapIncr 0) ∧
    ((LRU_get_pq (⟨1, [], [], [], false, 0, 0, false, false, false,
        false, true⟩ : State Nat) 5 77 (some .typeError)).result =
      .error .typeError ∧
    (LRU_get_pq (⟨1, [], [], [], false, 0, 0, false, false, false,
        false, true⟩ : State Nat) 5 77 (some .typeError)).state.misses =
      wrapIncr 0) :=
  ⟨(claim_C10 Nat _ 5 77 (by decide)).1 .typeError,
    (claim_C10 Nat _ 5 77 (by decide)).2.2.1 .typeError,
    (claim_C10 Nat _ 5 77 (by decide)).2.2.2.2.1 .typeError⟩

/-- Counterexample for C10 as stated: in the lrudict.c generation of
`get`, a probe whose key hashing raises TypeError does not propagate the
error — the call returns the default (with `misses` already incremented),
contradicting "the error then propagates". -/
theorem claim_C10_counterexample :
    (LRU_get (⟨1, [], [], [], false, 0, 0, false, false, false, false,
      true⟩ : State Nat) 5 77 (some .typeError)).result = .ok 77 ∧
    (LRU_get (⟨1, [], [], [], false, 0, 0, false, false, false, false,
      true⟩ : State Nat) 5 77 (some .typeError)).result ≠
      .error .typeError ∧
    (LRU_get (⟨1, [], [], [], false, 0, 0, false, false, false, false,
      true⟩ : State Nat) 5 77 (some .typeError)).state.misses = 1 := by
  have hres : (LRU_get (⟨1, [], [], [], false, 0, 0, false, false, false,
      false, true⟩ : State Nat) 5 77 (some .typeError)).result =
      .ok 77 := rfl
  refine ⟨hres, ?_, ?_⟩
  · rw [hres]
    intro h
    exact Except.noConfusion h
  · show wrapIncr 0 = 1
    norm_num [wrapIncr, ULONG_MOD]

theorem lrupq_loop_all (cb : K → V → Option CbErr) :
    ∀ (l : List (K × V)),
    (∀ m ∈ l, ∀ e, cb m.1 m.2 = some e → lrupq_err_bad e = false) →
    lrupq_loop cb l = (l, swallowedErrors cb l, none)
  | [], _ => rfl
  | n :: rest, h => by
    have hrec := lrupq_loop_all cb rest
      (fun m hm => h m (List.mem_cons_of_mem n hm))
    unfold lrupq_loop
    cases hc : cb n.1 n.2 with
    | none =>
      rw [hrec]
      simp [swallowedErrors, hc]
    | some e =>
      have hbad : lrupq_err_bad e = false :=
        h n (List.mem_cons_self n rest) e hc
      dsimp only
      rw [if_neg (by simp [hbad])]
      rw [hrec]
      simp [swallowedErrors, hc]

theorem lrupq_loop_break (cb : K → V → Option CbErr) :
    ∀ (pre : List (K × V)) (n : K × V) (post : List (K × V)) (e : CbErr),
    (∀ m ∈ pre, ∀ e2, cb m.1 m.2 = some e2 → lrupq_err_bad e2 = false) →
    cb n.1 n.2 = some e → lrupq_err_bad e = true →
    lrupq_loop cb (pre ++ n :: post) =
      (pre ++ [n], swallowedErrors cb pre, some e)
  | [], n, post, e, hpre, hc, hbad => by
    rw [List.nil_append]
    unfold lrupq_loop
    simp only [hc]
    rw [if_pos hbad]
    simp [swallowedErrors]
  | m :: pre, n, post, e, hpre, hc, hbad => by
    have hrec := lrupq_loop_break cb pre n post e
      (fun x hx => hpre x (List.mem_cons_of_mem m hx)) hc hbad
    rw [List.cons_append]
    unfold lrupq_loop
    cases hcm : cb m.1 m.2 with
    | none =>
      dsimp only
      rw [hrec]
      simp [swallowedErrors, hcm]
    | some e2 =>
      have hbad2 : lrupq_err_bad e2 = false :=
        hpre m (List.mem_cons_self m pre) e2 hcm
      dsimp only
      rw [if_neg (by simp [hbad2])]
      rw [hrec]
      simp [swallowedErrors, hcm]

/-- C3: in the purge-queue drain (`lrupq_purge`), a callback raising a
non-swallowable failure — RecursionError, SystemError, MemoryError, or
SystemExit, per `lrupq_err_bad` — abandons the loop (items after it in the
claimed batch are not invoked) and the error propagates, via the `-2`
return status, to the caller of the public operation that triggered the
drain; whereas when the callback raises only swallowable (arbitrary user)
errors, every batch item is invoked, the errors are routed to the
unraisable hook in order, and nothing propagates. -/
theorem claim_C3 (V : Type) [DecidableEq V] (q : PQ V)
    (cb : K → V → Option CbErr) (hpend : q.pending < UINT_MAX) :
    (∀ (pre : List (K × V)) (n : K × V) (post : List (K × V)) (e : CbErr),
      (q.lst.drop q.head).take (q.tail - q.head) = pre ++ n :: post →
      (∀ m ∈ pre, ∀ e2, cb m.1 m.2 = some e2 → lrupq_err_bad e2 = false) →
      cb n.1 n.2 = some e → lrupq_err_bad e = true →
      (lrupq_purge q (some cb)).invoked = pre ++ [n] ∧
      (lrupq_purge q (some cb)).propagated = some e ∧
      (lrupq_purge q (some cb)).ret = -2 ∧
      (lru_purge_queue_and_propagate q (some cb)).1 = .error e) ∧
    ((∀ m ∈ (q.lst.drop q.head).take (q.tail - q.head), ∀ e,
        cb m.1 m.2 = some e → lrupq_err_bad e = false) →
      (lrupq_purge q (some cb)).invoked =
        (q.lst.drop q.head).take (q.tail - q.head) ∧
      (lrupq_purge q (some cb)).unraisable =
        swallowedErrors cb ((q.lst.drop q.head).take (q.tail - q.head)) ∧
      (lrupq_purge q (some cb)).propagated = none ∧
      (lru_purge_queue_and_propagate q (some cb)).1 =
        .ok (lrupq_purge q (some cb)).q) := by
  constructor
  · intro pre n post e hdec hpre hc hbad
    have hne : ¬q.tail = q.head := by
      intro heq
      rw [heq, Nat.sub_self, List.take_zero] at hdec
      exact List.cons_ne_nil n post (List.append_eq_nil.mp hdec.symm).2
    have hpurge : lrupq_purge q (some cb) =
        ⟨{ q with head := q.tail }, pre ++ [n], swallowedErrors cb pre,
          some e, -2⟩ := by
      unfold lrupq_purge
      rw [if_neg hne, if_neg (by omega)]
      dsimp only
      rw [hdec, lrupq_loop_break cb pre n post e hpre hc hbad]
    refine ⟨by rw [hpurge], by rw [hpurge], by rw [hpurge], ?_⟩
    unfold lru_purge_queue_and_propagate
    rw [hpurge]
  · intro hsw
    by_cases heq : q.tail = q.head
    · have hpurge : lrupq_purge q (some cb) = ⟨q, [], [], none, 0⟩ := by
        unfold lrupq_purge
        rw [if_pos heq]
      have hbatch : (q.lst.drop q.head).take (q.tail - q.head) = [] := by
        rw [heq, Nat.sub_self, List.take_zero]
      refine ⟨?_, ?_, by rw [hpurge], ?_⟩
      · rw [hpurge, hbatch]
      · rw [hpurge, hbatch]
        rfl
      · unfold lru_purge_queue_and_propagate
        rw [hpurge]
    · have hloop := lrupq_loop_all cb
        ((q.lst.drop q.head).take (q.tail - q.head)) hsw
      by_cases hp0 : q.pending = 0
      · have hpurge : lrupq_purge q (some cb) =
            ⟨⟨(q.lst.drop q.tail), 0, q.tail - q.tail, q.pending⟩,
              (q.lst.drop q.head).take (q.tail - q.head),
              swallowedErrors cb ((q.lst.drop q.head).take
                (q.tail - q.head)), none, (q.tail : Int)⟩ := by
          unfold lrupq_purge
          rw [if_neg heq, if_neg (by omega)]
          dsimp only
          rw [hloop]
          dsimp only
          rw [if_pos hp0]
        refine ⟨by rw [hpurge], by rw [hpurge], by rw [hpurge], ?_⟩
        unfold lru_purge_queue_and_propagate
        rw [hpurge]
      · have hpurge : lrupq_purge q (some cb) =
            ⟨{ q with head := q.tail },
              (q.lst.drop q.head).take (q.tail - q.head),
              swallowedErrors cb ((q.lst.drop q.head).take
                (q.tail - q.head)), none, 0⟩ := by
          unfold lrupq_purge
          rw [if_neg heq, if_neg (by omega)]
          dsimp only
          rw [hloop]
          dsimp only
          rw [if_neg hp0]
        refine ⟨by rw [hpurge], by rw [hpurge], by rw [hpurge], ?_⟩
        unfold lru_purge_queue_and_propagate
        rw [hpurge]

/-- Witness for C3 on a two-item purge queue: an out-of-memory failure on
the first item abandons the loop before the second item and propagates,
while user errors on both items are swallowed and both items are served. -/
theorem claim_C3_witness :
    ((lrupq_purge (⟨[(0, 10), (1, 11)], 0, 2, 0⟩ : PQ Nat)
        (some (fun _ _ => some CbErr.outOfMemory))).invoked =
      [] ++ [(0, 10)] ∧
    (lrupq_purge (⟨[(0, 10), (1, 11)], 0, 2, 0⟩ : PQ Nat)
        (some (fun _ _ => some CbErr.outOfMemory))).propagated =
      some CbErr.outOfMemory ∧
    (lrupq_purge (⟨[(0, 10), (1, 11)], 0, 2, 0⟩ : PQ Nat)
        (some (fun _ _ => some CbErr.outOfMemory))).ret = -2 ∧
    (lru_purge_queue_and_propagate (⟨[(0, 10), (1, 11)], 0, 2, 0⟩ : PQ Nat)
        (some (fun _ _ => some CbErr.outOfMemory))).1 =
      .error CbErr.outOfMemory) ∧
    ((lrupq_purge (⟨[(0, 10), (1, 11)], 0, 2, 0⟩ : PQ Nat)
        (some (fun _ _ => some CbErr.userError))).invoked =
      (((⟨[(0, 10), (1, 11)], 0, 2, 0⟩ : PQ Nat)).lst.drop
        ((⟨[(0, 10), (1, 11)], 0, 2, 0⟩ : PQ Nat)).head).take
        ((⟨[(0, 10), (1, 11)], 0, 2, 0⟩ : PQ Nat).tail -
          (⟨[(0, 10), (1, 11)], 0, 2, 0⟩ : PQ Nat).head) ∧
    (lrupq_purge (⟨[(0, 10), (1, 11)], 0, 2, 0⟩ : PQ Nat)
        (some (fun _ _ => some CbErr.userError))).unraisable =
      swallowedErrors (fun _ _ => some CbErr.userError)
        ((((⟨[(0, 10), (1, 11)], 0, 2, 0⟩ : PQ Nat)).lst.drop
          ((⟨[(0, 10), (1, 11)], 0, 2, 0⟩ : PQ Nat)).head).take
          ((⟨[(0, 10), (1, 11)], 0, 2, 0⟩ : PQ Nat).tail -
            (⟨[(0, 10), (1, 11)], 0, 2, 0⟩ : PQ Nat).head)) ∧
    (lrupq_purge (⟨[(0, 10), (1, 11)], 0, 2, 0⟩ : PQ Nat)
        (some (fun _ _ => some CbErr.userError))).propagated = none ∧
    (lru_purge_queue_and_propagate (⟨[(0, 10), (1, 11)], 0, 2, 0⟩ : PQ Nat)
        (some (fun _ _ => some CbErr.userError))).1 =
      .ok (lrupq_purge (⟨[(0, 10), (1, 11)], 0, 2, 0⟩ : PQ Nat)
        (some (fun _ _ => some CbErr.userError))).q) :=
  ⟨(claim_C3 Nat (⟨[(0, 10), (1, 11)], 0, 2, 0⟩ : PQ Nat)
      (fun _ _ => some CbErr.outOfMemory) (by norm_num [UINT_MAX])).1
      [] (0, 10) [(1, 11)] CbErr.outOfMemory rfl (by simp) rfl rfl,
    (claim_C3 Nat (⟨[(0, 10), (1, 11)], 0, 2, 0⟩ : PQ Nat)
      (fun _ _ => some CbErr.userError) (by norm_num [UINT_MAX])).2
      (by intro m hm e he; cases he; rfl)⟩

end LRUNg
